import Mathlib

/-!
Shallow embedding of the cubic-spline interpolation engine from
`interp/cubic_spline.go`, together with the Kahan compensated summer from the
`kahan` package that it uses.  Go `float64` arithmetic is modelled by exact
rational arithmetic (`ℚ`); Go panics and solver failures are modelled by an
explicit error type (`Except`). The LU linear-system solver lives in a package
of the repository that is not part of the sources at hand, so it is modelled
from the spec's collaborator contract (see `solve4`).
-/

/-- The error conditions of the engine.  Go surfaces these as panics
(`unknown style`, `monotone ... not yet implemented`) or, for the linear
solver, as the SingularSystem condition of the spec's solver contract. -/
inductive SplineError where
  | unsupported : SplineError
  | singularSystem : SplineError
  | unknownStyle : Int → SplineError
  deriving DecidableEq, Repr

namespace kahan

/-- `kahan.Summer64`: a rolling compensated sum (fields `sum`, `compensation`). -/
structure Summer64 where
  sum : ℚ
  compensation : ℚ
  deriving DecidableEq, Repr

/-- `kahan.NewSummer64()`: starting sum of 0. -/
def NewSummer64 : Summer64 := ⟨0, 0⟩

/-- `Summer64.Add`: `n -= s.compensation; sum := s.sum + n;
s.compensation = (sum - s.sum) - n; s.sum = sum`. -/
def Summer64.Add (s : Summer64) (n : ℚ) : Summer64 :=
  let n' := n - s.compensation
  let sum := s.sum + n'
  { sum := sum, compensation := (sum - s.sum) - n' }

/-- `Summer64.Sum`: the current sum. -/
def Summer64.Sum (s : Summer64) : ℚ := s.sum

end kahan

namespace interp

open kahan

/-- `SplineStyle` is a Go `int`. -/
abbrev SplineStyle := Int

/-- `StandardStyle SplineStyle = iota` (= 0). -/
def StandardStyle : SplineStyle := 0

/-- `MidArcStyle` (= 1). -/
def MidArcStyle : SplineStyle := 1

/-- `MonotoneStyle` (= 2). -/
def MonotoneStyle : SplineStyle := 2

/-- `CubicFunc`: the four numbers `[a b c d]` correspond to
`a + bx + cx^2 + dx^3`. -/
structure CubicFunc where
  a : ℚ
  b : ℚ
  c : ℚ
  d : ℚ
  deriving DecidableEq, Repr

/-- The coefficient slice `f[:]` in order. -/
def CubicFunc.coeffs (f : CubicFunc) : List ℚ := [f.a, f.b, f.c, f.d]

/-- The zero value `CubicFunc{}`. -/
def CubicFunc.zero : CubicFunc := ⟨0, 0, 0, 0⟩

/-- `CubicFunc.Eval`: Kahan-summed loop
`for _, coeff := range f[:] { sum.Add(coeff * prod); prod *= x }`. -/
def CubicFunc.Eval (f : CubicFunc) (x : ℚ) : ℚ :=
  (f.coeffs.foldl
    (fun (sp : Summer64 × ℚ) coeff => (sp.1.Add (coeff * sp.2), sp.2 * x))
    (NewSummer64, 1)).1.Sum

/-- `CubicFunc.Deriv`: `f[1] + 2*f[2]*x + 3*f[3]*x*x`. -/
def CubicFunc.Deriv (f : CubicFunc) (x : ℚ) : ℚ :=
  f.b + 2 * f.c * x + 3 * f.d * x * x

/-- `CubicFunc.indefIntegral`: `f[0]*x + 1/2*f[1]*x2 + 1/3*f[2]*x3 + 1/4*f[3]*x4`. -/
def CubicFunc.indefIntegral (f : CubicFunc) (x : ℚ) : ℚ :=
  let x2 := x * x
  let x3 := x2 * x
  let x4 := x3 * x
  f.a * x + 1/2 * f.b * x2 + 1/3 * f.c * x3 + 1/4 * f.d * x4

/-- `CubicFunc.Integ`: `f.indefIntegral(x2) - f.indefIntegral(x1)`. -/
def CubicFunc.Integ (f : CubicFunc) (x1 x2 : ℚ) : ℚ :=
  f.indefIntegral x2 - f.indefIntegral x1

/-- A dense 4×4 matrix, the `linalg.Matrix{Rows: 4, Cols: 4, Data: …}` built by
`updateFunc`; the sixteen fields list the `Data` slice in row-major order. -/
structure Mat4 where
  m00 : ℚ
  m01 : ℚ
  m02 : ℚ
  m03 : ℚ
  m10 : ℚ
  m11 : ℚ
  m12 : ℚ
  m13 : ℚ
  m20 : ℚ
  m21 : ℚ
  m22 : ℚ
  m23 : ℚ
  m30 : ℚ
  m31 : ℚ
  m32 : ℚ
  m33 : ℚ
  deriving DecidableEq, Repr

/-- A 4-vector (`linalg.Vector` of length 4). -/
structure Vec4 where
  v0 : ℚ
  v1 : ℚ
  v2 : ℚ
  v3 : ℚ
  deriving DecidableEq, Repr

/-- 2×2 determinant. -/
def det2 (a b c d : ℚ) : ℚ := a * d - b * c

/-- 3×3 determinant by first-row cofactor expansion. -/
def det3 (a b c d e f g h i : ℚ) : ℚ :=
  a * det2 e f h i - b * det2 d f g i + c * det2 d e g h

/-- 4×4 determinant by first-row cofactor expansion. -/
def det4 (M : Mat4) : ℚ :=
  M.m00 * det3 M.m11 M.m12 M.m13 M.m21 M.m22 M.m23 M.m31 M.m32 M.m33
  - M.m01 * det3 M.m10 M.m12 M.m13 M.m20 M.m22 M.m23 M.m30 M.m32 M.m33
  + M.m02 * det3 M.m10 M.m11 M.m13 M.m20 M.m21 M.m23 M.m30 M.m31 M.m33
  - M.m03 * det3 M.m10 M.m11 M.m12 M.m20 M.m21 M.m22 M.m30 M.m31 M.m32

/-- `M` with column 0 replaced by `b`. -/
def replCol0 (M : Mat4) (b : Vec4) : Mat4 :=
  { M with m00 := b.v0, m10 := b.v1, m20 := b.v2, m30 := b.v3 }

/-- `M` with column 1 replaced by `b`. -/
def replCol1 (M : Mat4) (b : Vec4) : Mat4 :=
  { M with m01 := b.v0, m11 := b.v1, m21 := b.v2, m31 := b.v3 }

/-- `M` with column 2 replaced by `b`. -/
def replCol2 (M : Mat4) (b : Vec4) : Mat4 :=
  { M with m02 := b.v0, m12 := b.v1, m22 := b.v2, m32 := b.v3 }

/-- `M` with column 3 replaced by `b`. -/
def replCol3 (M : Mat4) (b : Vec4) : Mat4 :=
  { M with m03 := b.v0, m13 := b.v1, m23 := b.v2, m33 := b.v3 }

/-- Modelled from the spec: the `LinearSystemSolver` collaborator
(`ludecomp.Decompose(system)` followed by `lu.Solve(solutions)`, whose package
is not among the sources at hand).  Its contract: `solve(A: 4×4 matrix,
b: 4-vector) -> 4-vector`, failing with a SingularSystem condition when `A` is
singular; any conforming implementation (dense LU, QR, or a closed-form 4×4
inverse) satisfies the contract, so a closed-form Cramer solution is used. -/
def solve4 (M : Mat4) (b : Vec4) : Except SplineError Vec4 :=
  let d := det4 M
  if d = 0 then .error .singularSystem
  else .ok ⟨det4 (replCol0 M b) / d, det4 (replCol1 M b) / d,
            det4 (replCol2 M b) / d, det4 (replCol3 M b) / d⟩

/-- `CubicSpline`: style, knot abscissas `x`, ordinates `y`, per-knot
`slopes`, per-segment cubic `funcs`. -/
structure CubicSpline where
  style : SplineStyle
  x : List ℚ
  y : List ℚ
  slopes : List ℚ
  funcs : List CubicFunc
  deriving DecidableEq

/-- `NewCubicSpline(style)`: a `CubicSpline` with no pieces
(`&CubicSpline{style: style}`). -/
def NewCubicSpline (style : SplineStyle) : CubicSpline :=
  { style := style, x := [], y := [], slopes := [], funcs := [] }

/-- One step of Go's `sort.Search` loop specialised to
`sort.SearchFloat64s(a, x)`: `i, j := 0, n; for i < j { h := (i+j)/2;
if !(a[h] >= x) { i = h + 1 } else { j = h } }; return i`.
The loop narrows `j - i` by at least one per iteration, so a fuel of the
initial `j - i` (that is, `n`) always suffices; fuel only makes the
recursion structural. -/
def searchLoop (xs : List ℚ) (t : ℚ) : Nat → Nat → Nat → Nat
  | 0, i, _ => i
  | fuel + 1, i, j =>
    -- `h := (i + j) / 2`; `!(a[h] >= x)` is `a[h] < x`
    if i < j then
      if xs.getD ((i + j) / 2) 0 < t then searchLoop xs t fuel ((i + j) / 2 + 1) j
      else searchLoop xs t fuel i ((i + j) / 2)
    else i

/-- `sort.SearchFloat64s(xs, t)`: smallest index `i` with `xs[i] >= t`
(for sorted `xs`), or `len(xs)` if there is none. -/
def searchFloat64s (xs : List ℚ) (t : ℚ) : Nat :=
  searchLoop xs t xs.length 0 xs.length

/-- Insertion of `v` at position `i` of a list.  This is the net effect of
Go's `append` / `copy(s[idx+1:], s[idx:])` shift followed by the assignment
`s[idx] = v`. -/
def insertAt {α : Type} (xs : List α) (i : Nat) (v : α) : List α :=
  xs.take i ++ v :: xs.drop i

/-- The shift without a following assignment, as `Add` performs on `c.slopes`
(appending `0`) and on `c.funcs` (appending `CubicFunc{}` under the guard
`idx != len(c.funcs)`): `s := append(s, d); copy(s[idx+1:], s[idx:])`.  For
`idx < len s` this duplicates the old `s[idx]` into position `idx`; otherwise
it appends `d` (when `idx = len s` the `copy` moves nothing, and the guard
skips the `copy` for `idx = len s + 1`, with the same result). -/
def shiftInsert {α : Type} (d : α) (xs : List α) (i : Nat) : List α :=
  if h : i < xs.length then insertAt xs i (xs.get ⟨i, h⟩) else xs ++ [d]

/-- `computeStandardSlope` from the source, reading `c.x`, `c.y`. -/
def CubicSpline.computeStandardSlope (c : CubicSpline) (idx : Nat) : ℚ :=
  if c.x.length < 2 then 0
  else if idx = 0 then (c.y.getD 1 0 - c.y.getD 0 0) / (c.x.getD 1 0 - c.x.getD 0 0)
  else if idx = c.x.length - 1 then
    let last := c.x.length - 1
    (c.y.getD last 0 - c.y.getD (last - 1) 0) / (c.x.getD last 0 - c.x.getD (last - 1) 0)
  else
    let m1 := (c.y.getD idx 0 - c.y.getD (idx - 1) 0) / (c.x.getD idx 0 - c.x.getD (idx - 1) 0)
    let m2 := (c.y.getD (idx + 1) 0 - c.y.getD idx 0) / (c.x.getD (idx + 1) 0 - c.x.getD idx 0)
    (m1 + m2) / 2

/-- `computeMidArcSlope` from the source. -/
def CubicSpline.computeMidArcSlope (c : CubicSpline) (idx : Nat) : ℚ :=
  if c.x.length < 2 then 0
  else if idx = 0 then (c.y.getD 1 0 - c.y.getD 0 0) / (c.x.getD 1 0 - c.x.getD 0 0)
  else if idx = c.x.length - 1 then
    let last := c.x.length - 1
    (c.y.getD last 0 - c.y.getD (last - 1) 0) / (c.x.getD last 0 - c.x.getD (last - 1) 0)
  else
    (c.y.getD (idx + 1) 0 - c.y.getD (idx - 1) 0) / (c.x.getD (idx + 1) 0 - c.x.getD (idx - 1) 0)

/-- `computeMonotoneSlope`: `panic("monotone cubic splines not yet implemented.")`,
modelled as the Unsupported error. -/
def CubicSpline.computeMonotoneSlope (_c : CubicSpline) (_idx : Nat) :
    Except SplineError ℚ :=
  .error .unsupported

/-- `updateSlope`: dispatch on the style; the `default` arm of the Go `switch`
panics with `unknown style`, modelled as the unknownStyle error. -/
def CubicSpline.updateSlope (c : CubicSpline) (idx : Nat) :
    Except SplineError CubicSpline :=
  if c.style = StandardStyle then
    .ok { c with slopes := c.slopes.set idx (c.computeStandardSlope idx) }
  else if c.style = MidArcStyle then
    .ok { c with slopes := c.slopes.set idx (c.computeMidArcSlope idx) }
  else if c.style = MonotoneStyle then
    (c.computeMonotoneSlope idx).map fun s => { c with slopes := c.slopes.set idx s }
  else .error (.unknownStyle c.style)

/-- `updateFunc`: build the 4×4 Hermite system at segment `idx` and solve it
for the coefficient vector. -/
def CubicSpline.updateFunc (c : CubicSpline) (idx : Nat) :
    Except SplineError CubicSpline := do
  let x0 := c.x.getD idx 0
  let x1 := c.x.getD (idx + 1) 0
  let system : Mat4 :=
    ⟨1, x0, x0 * x0, x0 * x0 * x0,
     1, x1, x1 * x1, x1 * x1 * x1,
     0, 1, 2 * x0, 3 * x0 * x0,
     0, 1, 2 * x1, 3 * x1 * x1⟩
  let solutions : Vec4 :=
    ⟨c.y.getD idx 0, c.y.getD (idx + 1) 0, c.slopes.getD idx 0, c.slopes.getD (idx + 1) 0⟩
  let solution ← solve4 system solutions
  .ok { c with funcs := c.funcs.set idx ⟨solution.v0, solution.v1, solution.v2, solution.v3⟩ }

/-- The insertion phase of `Add` (source lines 92–109): shift `x`, `y`,
`slopes` and (when the new knot count exceeds 1) `funcs` up from the search
index, then assign `c.x[idx] = x`, `c.y[idx] = y`.  The shifted `slopes[idx]`
and `funcs[idx]` slots keep their shifted-in garbage until the update phase
overwrites them. -/
def CubicSpline.inserted (c : CubicSpline) (x y : ℚ) : CubicSpline :=
  let idx := searchFloat64s c.x x
  let xs := (shiftInsert 0 c.x idx).set idx x
  let ys := (shiftInsert 0 c.y idx).set idx y
  let ss := shiftInsert 0 c.slopes idx
  let fs := if xs.length > 1 then shiftInsert CubicFunc.zero c.funcs idx else c.funcs
  { style := c.style, x := xs, y := ys, slopes := ss, funcs := fs }

/-- `Add(x, y)`: sorted insert of the knot (`inserted`), then the
bounded-radius slope recomputation and segment refits of the source
(lines 111–125). -/
def CubicSpline.Add (c : CubicSpline) (x y : ℚ) : Except SplineError CubicSpline := do
  let idx := searchFloat64s c.x x
  let c1 := c.inserted x y
  let c2 ← c1.updateSlope idx
  let c3 ←
    if 0 < idx then do
      let ca ← c2.updateSlope (idx - 1)
      let cb ← ca.updateFunc (idx - 1)
      if 1 < idx then cb.updateFunc (idx - 2) else pure cb
    else pure c2
  if idx < c3.slopes.length - 1 then do
    let cd ← c3.updateSlope (idx + 1)
    let ce ← cd.updateFunc idx
    if idx < c3.slopes.length - 2 then ce.updateFunc (idx + 1) else pure ce
  else pure c3

/-- `funcIndexForX`: `idx := sort.SearchFloat64s(c.x, x) - 1`, clamped by
`if idx < 0 { idx = 0 } else if idx >= len(c.funcs) { idx = len(c.funcs)-1 }`
(Go `int` arithmetic, hence the detour through `Int`). -/
def CubicSpline.funcIndexForX (c : CubicSpline) (x : ℚ) : Nat :=
  let i0 : Int := (searchFloat64s c.x x : Int) - 1
  let i1 : Int :=
    if i0 < 0 then 0
    else if (c.funcs.length : Int) ≤ i0 then (c.funcs.length : Int) - 1
    else i0
  i1.toNat

/-- `CubicSpline.Eval`. -/
def CubicSpline.Eval (c : CubicSpline) (x : ℚ) : ℚ :=
  if c.y.length = 1 then c.y.getD 0 0
  else if c.y.length = 0 then 0
  else (c.funcs.getD (c.funcIndexForX x) CubicFunc.zero).Eval x

/-- `CubicSpline.Deriv`. -/
def CubicSpline.Deriv (c : CubicSpline) (x : ℚ) : ℚ :=
  if c.y.length < 2 then 0
  else (c.funcs.getD (c.funcIndexForX x) CubicFunc.zero).Deriv x

/-- The ascending-argument path of `CubicSpline.Integ` (everything after the
`x1 == x2` and `x1 > x2` tests): the small-size cases and the Kahan-summed
segment loop `for i := startIdx; i <= endIdx; i++`. -/
def CubicSpline.IntegAsc (c : CubicSpline) (x1 x2 : ℚ) : ℚ :=
  if c.y.length = 1 then c.y.getD 0 0 * (x2 - x1)
  else if c.y.length = 0 then 0
  else
    let startIdx := c.funcIndexForX x1
    let endIdx := c.funcIndexForX x2
    ((List.range' startIdx (endIdx + 1 - startIdx)).foldl
      (fun (sum : Summer64) i =>
        let startX := if i = startIdx then x1 else c.x.getD i 0
        let endX := if i = endIdx then x2 else c.x.getD (i + 1) 0
        sum.Add ((c.funcs.getD i CubicFunc.zero).Integ startX endX))
      NewSummer64).Sum

/-- `CubicSpline.Integ`: `x1 == x2` returns 0; `x1 > x2` negates the call with
the arguments swapped (which then takes the ascending path); otherwise the
ascending path. -/
def CubicSpline.Integ (c : CubicSpline) (x1 x2 : ℚ) : ℚ :=
  if x1 = x2 then 0
  else if x2 < x1 then -(c.IntegAsc x2 x1)
  else c.IntegAsc x1 x2

/-! ### Proof-layer definitions

Abbreviations for what the update phase of `Add` computes on its success
path, the engine invariant, reachability by `Add`, the spec's slope formulas
(for comparison with the source's), and the segment-sum decomposition of
`Integ`. -/

/-- The Hermite system matrix built by `updateFunc` (its `Data` slice in
row-major order). -/
def hermiteSystem (x0 x1 : ℚ) : Mat4 :=
  ⟨1, x0, x0 * x0, x0 * x0 * x0,
   1, x1, x1 * x1, x1 * x1 * x1,
   0, 1, 2 * x0, 3 * x0 * x0,
   0, 1, 2 * x1, 3 * x1 * x1⟩

/-- The coefficient vector `solve4` returns for the Hermite system (the
success path of `updateFunc`). -/
def hermiteFit (x0 x1 y0 y1 s0 s1 : ℚ) : CubicFunc :=
  let M := hermiteSystem x0 x1
  let b : Vec4 := ⟨y0, y1, s0, s1⟩
  ⟨det4 (replCol0 M b) / det4 M, det4 (replCol1 M b) / det4 M,
   det4 (replCol2 M b) / det4 M, det4 (replCol3 M b) / det4 M⟩

/-- The slope value `updateSlope` stores for the two implemented styles. -/
def CubicSpline.slopeFor (c : CubicSpline) (idx : Nat) : ℚ :=
  if c.style = StandardStyle then c.computeStandardSlope idx
  else c.computeMidArcSlope idx

/-- The success-path effect of `updateSlope` (Standard/MidArc styles). -/
def CubicSpline.setSlopeAt (c : CubicSpline) (idx : Nat) : CubicSpline :=
  { c with slopes := c.slopes.set idx (c.slopeFor idx) }

/-- The success-path effect of `updateFunc`. -/
def CubicSpline.setFuncAt (c : CubicSpline) (idx : Nat) : CubicSpline :=
  { c with
    funcs := c.funcs.set idx
      (hermiteFit (c.x.getD idx 0) (c.x.getD (idx + 1) 0)
        (c.y.getD idx 0) (c.y.getD (idx + 1) 0)
        (c.slopes.getD idx 0) (c.slopes.getD (idx + 1) 0)) }

/-- The success path of `Add`, with each `updateSlope` / `updateFunc` call
replaced by its success-path effect. -/
def CubicSpline.addPure (c : CubicSpline) (x y : ℚ) : CubicSpline :=
  let idx := searchFloat64s c.x x
  let c1 := c.inserted x y
  let c2 := c1.setSlopeAt idx
  let c3 :=
    if 0 < idx then
      let ca := c2.setSlopeAt (idx - 1)
      let cb := ca.setFuncAt (idx - 1)
      if 1 < idx then cb.setFuncAt (idx - 2) else cb
    else c2
  if idx < c3.slopes.length - 1 then
    let cd := c3.setSlopeAt (idx + 1)
    let ce := cd.setFuncAt idx
    if idx < c3.slopes.length - 2 then ce.setFuncAt (idx + 1) else ce
  else c3

/-- The engine invariant: component counts, strictly ascending knots, a
style constraint for non-empty splines, slope consistency with the active
policy, and value interpolation of every segment polynomial at its two
endpoint knots. -/
def Inv (c : CubicSpline) : Prop :=
  c.y.length = c.x.length ∧
  c.slopes.length = c.x.length ∧
  c.funcs.length = c.x.length - 1 ∧
  c.x.Pairwise (· < ·) ∧
  (c.x ≠ [] → c.style = StandardStyle ∨ c.style = MidArcStyle) ∧
  (∀ k, k < c.x.length → c.slopes.getD k 0 = c.slopeFor k) ∧
  (∀ k, k + 1 < c.x.length →
    (c.funcs.getD k CubicFunc.zero).Eval (c.x.getD k 0) = c.y.getD k 0 ∧
    (c.funcs.getD k CubicFunc.zero).Eval (c.x.getD (k + 1) 0) = c.y.getD (k + 1) 0)

/-- The spline states produced by a `NewCubicSpline` call followed by any
sequence of successful `Add` calls. -/
inductive Reachable : CubicSpline → Prop where
  | new (style : SplineStyle) : Reachable (NewCubicSpline style)
  | add (c c' : CubicSpline) (x y : ℚ) :
      Reachable c → c.Add x y = .ok c' → Reachable c'

/-- The Standard slope formula as the spec words it: average of the two
adjacent secant slopes at an interior knot, the single adjacent secant slope
at a boundary knot, 0 with fewer than 2 knots. -/
def slopeSpecStandard (xs ys : List ℚ) (i : Nat) : ℚ :=
  if xs.length < 2 then 0
  else if i = 0 then (ys.getD 1 0 - ys.getD 0 0) / (xs.getD 1 0 - xs.getD 0 0)
  else if i = xs.length - 1 then
    (ys.getD i 0 - ys.getD (i - 1) 0) / (xs.getD i 0 - xs.getD (i - 1) 0)
  else
    ((ys.getD i 0 - ys.getD (i - 1) 0) / (xs.getD i 0 - xs.getD (i - 1) 0)
      + (ys.getD (i + 1) 0 - ys.getD i 0) / (xs.getD (i + 1) 0 - xs.getD i 0)) / 2

/-- The MidArc slope formula as the spec words it: secant slope across the
outer span at an interior knot, boundary knots as in Standard. -/
def slopeSpecMidArc (xs ys : List ℚ) (i : Nat) : ℚ :=
  if xs.length < 2 then 0
  else if i = 0 then (ys.getD 1 0 - ys.getD 0 0) / (xs.getD 1 0 - xs.getD 0 0)
  else if i = xs.length - 1 then
    (ys.getD i 0 - ys.getD (i - 1) 0) / (xs.getD i 0 - xs.getD (i - 1) 0)
  else
    (ys.getD (i + 1) 0 - ys.getD (i - 1) 0) / (xs.getD (i + 1) 0 - xs.getD (i - 1) 0)

/-- The segment sum computed by the loop in `Integ`'s ascending path, as a
plain list sum (the Kahan accumulation is exact over `ℚ`). -/
def CubicSpline.segSum (c : CubicSpline) (u v : ℚ) (s e : Nat) : ℚ :=
  ((List.range' s (e + 1 - s)).map (fun i =>
    (c.funcs.getD i CubicFunc.zero).Integ
      (if i = s then u else c.x.getD i 0)
      (if i = e then v else c.x.getD (i + 1) 0))).sum

end interp

/-! ### Basic lemmas: the compensated summer is exact over `ℚ` -/

namespace kahan

theorem Summer64_Add_sum (s : Summer64) (n : ℚ) :
    (s.Add n).sum = s.sum + (n - s.compensation) := rfl

theorem Summer64_Add_compensation (s : Summer64) (n : ℚ) :
    (s.Add n).compensation = 0 := by
  simp only [Summer64.Add]
  ring

/-- Folding `Summer64.Add` over a list of values from a compensation-free
state yields the exact running total: over `ℚ` the Kahan compensation is
identically zero. -/
theorem foldl_Add_Sum (f : α → ℚ) (l : List α) (s : Summer64)
    (h : s.compensation = 0) :
    (l.foldl (fun acc i => acc.Add (f i)) s).Sum = s.sum + (l.map f).sum := by
  induction l generalizing s with
  | nil => simp [Summer64.Sum]
  | cons a l ih =>
    rw [List.foldl_cons, ih _ (Summer64_Add_compensation s (f a)),
      Summer64_Add_sum, h]
    simp
    ring

end kahan

namespace interp

open kahan

theorem CubicFunc.Eval_eq (f : CubicFunc) (x : ℚ) :
    f.Eval x = f.a + f.b * x + f.c * x ^ 2 + f.d * x ^ 3 := by
  simp only [CubicFunc.Eval, CubicFunc.coeffs, List.foldl, NewSummer64,
    Summer64.Add, Summer64.Sum]
  ring

theorem CubicFunc.indefIntegral_eq (f : CubicFunc) (x : ℚ) :
    f.indefIntegral x =
      f.a * x + f.b * x ^ 2 / 2 + f.c * x ^ 3 / 3 + f.d * x ^ 4 / 4 := by
  simp only [CubicFunc.indefIntegral]
  ring

/-- Splitting a cubic's definite integral at an intermediate point is exact:
`F(w) - F(u) = (F(v) - F(u)) + (F(w) - F(v))`. -/
theorem CubicFunc.Integ_trans (f : CubicFunc) (u v w : ℚ) :
    f.Integ u v + f.Integ v w = f.Integ u w := by
  simp only [CubicFunc.Integ]
  ring

/-! ### Inversion lemmas for `Except` chains -/

theorem except_bind_ok_iff {ε α β : Type} (e : Except ε α) (f : α → Except ε β)
    (b : β) : e.bind f = .ok b ↔ ∃ a, e = .ok a ∧ f a = .ok b := by
  cases e with
  | error err => simp [Except.bind]
  | ok a => simp [Except.bind]

theorem except_bind_error {ε α β : Type} (e : Except ε α) (f : α → Except ε β)
    (err : ε) (h : e = .error err) : e.bind f = .error err := by
  subst h; rfl

/-! ### List lemmas: `getD` through `set`, `insertAt`, `shiftInsert` -/

theorem getD_set_self {α : Type} (l : List α) (i : Nat) (v d : α)
    (h : i < l.length) : (l.set i v).getD i d = v := by
  rw [List.getD_eq_getElem _ _ (by simpa using h)]
  simp [List.getElem_set_self]

theorem getD_set_ne {α : Type} (l : List α) (i j : Nat) (v d : α)
    (h : i ≠ j) : (l.set i v).getD j d = l.getD j d := by
  simp [List.getD, List.getElem?_set_ne h]

theorem length_insertAt {α : Type} (xs : List α) (i : Nat) (v : α) :
    (insertAt xs i v).length = xs.length + 1 := by
  simp [insertAt]
  omega

theorem insertAt_zero {α : Type} (xs : List α) (v : α) :
    insertAt xs 0 v = v :: xs := by simp [insertAt]

theorem insertAt_succ_cons {α : Type} (a : α) (xs : List α) (i : Nat) (v : α) :
    insertAt (a :: xs) (i + 1) v = a :: insertAt xs i v := by
  simp [insertAt]

theorem getD_insertAt_lt {α : Type} (xs : List α) (i : Nat) (v d : α) :
    ∀ j, j < i → i ≤ xs.length → (insertAt xs i v).getD j d = xs.getD j d := by
  induction xs generalizing i with
  | nil => intro j hj hi; simp only [List.length_nil, Nat.le_zero] at hi; omega
  | cons a xs ih =>
    intro j hj hi
    cases i with
    | zero => omega
    | succ i =>
      rw [insertAt_succ_cons]
      cases j with
      | zero => rfl
      | succ j =>
        simp only [List.getD_cons_succ]
        exact ih i j (by omega) (by simpa using hi)

theorem getD_insertAt_self {α : Type} (xs : List α) (i : Nat) (v d : α) :
    i ≤ xs.length → (insertAt xs i v).getD i d = v := by
  induction xs generalizing i with
  | nil =>
    intro hi
    have h0 : i = 0 := by simpa using hi
    subst h0
    rfl
  | cons a xs ih =>
    intro hi
    cases i with
    | zero => rw [insertAt_zero]; rfl
    | succ i =>
      rw [insertAt_succ_cons]
      simpa using ih i (by simpa using hi)

theorem getD_insertAt_gt {α : Type} (xs : List α) (i : Nat) (v d : α) :
    ∀ j, i < j → (insertAt xs i v).getD j d = xs.getD (j - 1) d := by
  induction xs generalizing i with
  | nil =>
    intro j hj
    cases i with
    | zero =>
      rw [insertAt_zero]
      cases j with
      | zero => omega
      | succ j => simp
    | succ i =>
      show (List.nil.take (i+1) ++ v :: List.nil.drop (i+1)).getD j d = _
      simp only [List.take_nil, List.drop_nil, List.nil_append]
      cases j with
      | zero => omega
      | succ j => simp
  | cons a xs ih =>
    intro j hj
    cases i with
    | zero =>
      rw [insertAt_zero]
      cases j with
      | zero => omega
      | succ j => simp
    | succ i =>
      rw [insertAt_succ_cons]
      cases j with
      | zero => omega
      | succ j =>
        simp only [List.getD_cons_succ]
        rw [ih i j (by omega)]
        cases j with
        | zero => omega
        | succ j2 => simp only [Nat.add_sub_cancel, List.getD_cons_succ]

theorem set_insertAt_self {α : Type} (xs : List α) (i : Nat) (w v : α)
    (h : i ≤ xs.length) : (insertAt xs i w).set i v = insertAt xs i v := by
  induction xs generalizing i with
  | nil =>
    have h0 : i = 0 := by simpa using h
    subst h0
    simp [insertAt]
  | cons a xs ih =>
    cases i with
    | zero => simp [insertAt_zero]
    | succ i =>
      simp only [insertAt_succ_cons, List.set_cons_succ]
      rw [ih i (by simpa using h)]

theorem shiftInsert_set {α : Type} (d : α) (xs : List α) (i : Nat) (v : α)
    (h : i ≤ xs.length) : (shiftInsert d xs i).set i v = insertAt xs i v := by
  unfold shiftInsert
  split
  · exact set_insertAt_self xs i _ v h
  · next h2 =>
    have hi : i = xs.length := by omega
    subst hi
    have he : xs ++ [d] = insertAt xs xs.length d := by
      simp [insertAt]
    rw [he, set_insertAt_self _ _ _ _ le_rfl]

/-- `shiftInsert` agrees with an `insertAt` of some (irrelevant) element. -/
theorem shiftInsert_eq_insertAt {α : Type} (d : α) (xs : List α) (i : Nat)
    (h : i ≤ xs.length) : ∃ w, shiftInsert d xs i = insertAt xs i w := by
  unfold shiftInsert
  split
  · exact ⟨_, rfl⟩
  · next h2 =>
    have hi : i = xs.length := by omega
    subst hi
    exact ⟨d, by simp [insertAt]⟩

theorem length_shiftInsert {α : Type} (d : α) (xs : List α) (i : Nat) :
    (shiftInsert d xs i).length = xs.length + 1 := by
  unfold shiftInsert
  split
  · exact length_insertAt xs i _
  · simp

theorem getD_shiftInsert_lt {α : Type} (d : α) (xs : List α) (i j : Nat)
    (e : α) (hj : j < i) (hi : i ≤ xs.length) :
    (shiftInsert d xs i).getD j e = xs.getD j e := by
  obtain ⟨w, hw⟩ := shiftInsert_eq_insertAt d xs i hi
  rw [hw, getD_insertAt_lt xs i w e j hj hi]

theorem getD_shiftInsert_gt {α : Type} (d : α) (xs : List α) (i j : Nat)
    (e : α) (hj : i < j) (hi : i ≤ xs.length) :
    (shiftInsert d xs i).getD j e = xs.getD (j - 1) e := by
  obtain ⟨w, hw⟩ := shiftInsert_eq_insertAt d xs i hi
  rw [hw, getD_insertAt_gt xs i w e j hj]

end interp

/-! ### Binary-search lemmas -/

namespace interp

theorem searchLoop_le (xs : List ℚ) (t : ℚ) :
    ∀ fuel i j, i ≤ j → searchLoop xs t fuel i j ≤ j := by
  intro fuel
  induction fuel with
  | zero => intro i j h; exact h
  | succ fuel ih =>
    intro i j h
    rw [searchLoop]
    by_cases hij : i < j
    · rw [if_pos hij]
      by_cases hlt : xs.getD ((i + j) / 2) 0 < t
      · rw [if_pos hlt]
        exact ih _ _ (by omega)
      · rw [if_neg hlt]
        exact le_trans (ih _ _ (by omega)) (by omega)
    · rwa [if_neg hij]

theorem searchFloat64s_le_length (xs : List ℚ) (t : ℚ) :
    searchFloat64s xs t ≤ xs.length :=
  searchLoop_le xs t xs.length 0 xs.length (by omega)

/-- Sorted (non-decreasing) lists have monotone positional reads. -/
theorem sorted_getD_mono (xs : List ℚ) (hs : xs.Pairwise (· ≤ ·))
    (k m : Nat) (hkm : k ≤ m) (hm : m < xs.length) :
    xs.getD k 0 ≤ xs.getD m 0 := by
  rcases Nat.eq_or_lt_of_le hkm with h | h
  · subst h; exact le_refl _
  · rw [List.getD_eq_getElem _ _ (by omega), List.getD_eq_getElem _ _ hm]
    exact List.pairwise_iff_getElem.mp hs k m (by omega) hm h

/-- Loop invariant of Go's `sort.Search` on a sorted list: everything left of
the result is `< t`, everything from the result on is `≥ t`. -/
theorem searchLoop_spec (xs : List ℚ) (t : ℚ) (hs : xs.Pairwise (· ≤ ·)) :
    ∀ fuel i j, j - i ≤ fuel → i ≤ j → j ≤ xs.length →
    (∀ k, k < i → xs.getD k 0 < t) →
    (∀ k, j ≤ k → k < xs.length → t ≤ xs.getD k 0) →
    (∀ k, k < searchLoop xs t fuel i j → xs.getD k 0 < t) ∧
    (∀ k, searchLoop xs t fuel i j ≤ k → k < xs.length → t ≤ xs.getD k 0) := by
  intro fuel
  induction fuel with
  | zero =>
    intro i j hfuel hij hlen hlow hhigh
    have hij2 : i = j := by omega
    subst hij2
    exact ⟨hlow, hhigh⟩
  | succ fuel ih =>
    intro i j hfuel hij hlen hlow hhigh
    rw [searchLoop]
    by_cases hij2 : i < j
    · rw [if_pos hij2]
      by_cases hlt : xs.getD ((i + j) / 2) 0 < t
      · rw [if_pos hlt]
        refine ih ((i + j) / 2 + 1) j (by omega) (by omega) hlen ?_ hhigh
        intro k hk
        exact lt_of_le_of_lt
          (sorted_getD_mono xs hs k ((i + j) / 2) (by omega) (by omega)) hlt
      · rw [if_neg hlt]
        refine ih i ((i + j) / 2) (by omega) (by omega) (by omega) hlow ?_
        intro k hk hklen
        exact le_trans (le_of_not_lt hlt)
          (sorted_getD_mono xs hs ((i + j) / 2) k hk hklen)
    · rw [if_neg hij2]
      have hij3 : i = j := by omega
      subst hij3
      exact ⟨hlow, hhigh⟩

theorem searchFloat64s_lt (xs : List ℚ) (t : ℚ) (hs : xs.Pairwise (· ≤ ·)) :
    ∀ k, k < searchFloat64s xs t → xs.getD k 0 < t :=
  (searchLoop_spec xs t hs xs.length 0 xs.length (by omega) (by omega)
    (le_refl _) (by omega) (by omega)).1

theorem searchFloat64s_ge (xs : List ℚ) (t : ℚ) (hs : xs.Pairwise (· ≤ ·)) :
    ∀ k, searchFloat64s xs t ≤ k → k < xs.length → t ≤ xs.getD k 0 :=
  (searchLoop_spec xs t hs xs.length 0 xs.length (by omega) (by omega)
    (le_refl _) (by omega) (by omega)).2

/-- `sort.SearchFloat64s` is monotone in the probe on a sorted list. -/
theorem searchFloat64s_mono (xs : List ℚ) (hs : xs.Pairwise (· ≤ ·))
    (t1 t2 : ℚ) (h : t1 ≤ t2) : searchFloat64s xs t1 ≤ searchFloat64s xs t2 := by
  by_contra hc
  push_neg at hc
  have h1 : searchFloat64s xs t2 < searchFloat64s xs t1 := hc
  have h2 : xs.getD (searchFloat64s xs t2) 0 < t1 :=
    searchFloat64s_lt xs t1 hs _ h1
  have h3 : t2 ≤ xs.getD (searchFloat64s xs t2) 0 :=
    searchFloat64s_ge xs t2 hs _ (le_refl _)
      (lt_of_lt_of_le h1 (searchFloat64s_le_length xs t1))
  linarith

/-- On a strictly sorted list that contains the probe, the search lands
exactly on it. -/
theorem searchFloat64s_of_mem (xs : List ℚ) (t : ℚ)
    (hs : xs.Pairwise (· < ·)) (hmem : t ∈ xs) :
    searchFloat64s xs t < xs.length ∧ xs.getD (searchFloat64s xs t) 0 = t := by
  have hle : xs.Pairwise (· ≤ ·) := hs.imp le_of_lt
  obtain ⟨j, hj, hjt⟩ := List.getElem_of_mem hmem
  have hjD : xs.getD j 0 = t := by rw [List.getD_eq_getElem _ _ hj, hjt]
  have hrj : searchFloat64s xs t ≤ j := by
    by_contra hc
    push_neg at hc
    have := searchFloat64s_lt xs t hle j hc
    rw [hjD] at this
    exact lt_irrefl t this
  have hrlen : searchFloat64s xs t < xs.length := lt_of_le_of_lt hrj hj
  refine ⟨hrlen, le_antisymm ?_ ?_⟩
  · have hmono := sorted_getD_mono xs hle _ j hrj hj
    rwa [hjD] at hmono
  · exact searchFloat64s_ge xs t hle _ (le_refl _) hrlen

/-- Conversely, if the probe is absent, every position from the search result
on is strictly greater. -/
theorem searchFloat64s_gt_of_not_mem (xs : List ℚ) (t : ℚ)
    (hs : xs.Pairwise (· ≤ ·)) (hmem : t ∉ xs) :
    ∀ k, searchFloat64s xs t ≤ k → k < xs.length → t < xs.getD k 0 := by
  intro k hk hklen
  rcases lt_or_eq_of_le (searchFloat64s_ge xs t hs k hk hklen) with h | h
  · exact h
  · exfalso
    apply hmem
    rw [h, List.getD_eq_getElem _ _ hklen]
    exact List.getElem_mem hklen

/-- Inserting an absent probe at its search position keeps the knot list
strictly sorted. -/
theorem insertAt_pairwise_lt (xs : List ℚ) (t : ℚ)
    (hs : xs.Pairwise (· < ·)) (hmem : t ∉ xs) :
    (insertAt xs (searchFloat64s xs t) t).Pairwise (· < ·) := by
  have hle : xs.Pairwise (· ≤ ·) := hs.imp le_of_lt
  have hrlen := searchFloat64s_le_length xs t
  rw [insertAt, List.pairwise_append]
  refine ⟨hs.sublist (List.take_sublist _ _), ?_, ?_⟩
  · rw [List.pairwise_cons]
    refine ⟨?_, hs.sublist (List.drop_sublist _ _)⟩
    intro b hb
    obtain ⟨k, hk, hkb⟩ := List.getElem_of_mem hb
    rw [List.getElem_drop] at hkb
    simp only [List.length_drop] at hk
    rw [← hkb, ← List.getD_eq_getElem xs 0 (by omega)]
    exact searchFloat64s_gt_of_not_mem xs t hle hmem _ (by omega) (by omega)
  · intro a ha b hb
    obtain ⟨k, hk, hka⟩ := List.getElem_of_mem ha
    rw [List.getElem_take] at hka
    have hklen : k < xs.length := by
      simp only [List.length_take, lt_min_iff] at hk
      exact hk.2
    have hkr : k < searchFloat64s xs t := by
      simp only [List.length_take, lt_min_iff] at hk
      exact hk.1
    have halt : a < t := by
      rw [← hka, ← List.getD_eq_getElem xs 0 hklen]
      exact searchFloat64s_lt xs t hle k hkr
    rcases List.mem_cons.mp hb with rfl | hb2
    · exact halt
    · obtain ⟨m, hm, hmb⟩ := List.getElem_of_mem hb2
      rw [List.getElem_drop] at hmb
      simp only [List.length_drop] at hm
      have htb : t < b := by
        rw [← hmb, ← List.getD_eq_getElem xs 0 (by omega)]
        exact searchFloat64s_gt_of_not_mem xs t hle hmem _ (by omega) (by omega)
      exact lt_trans halt htb

end interp

/-! ### The Hermite segment refit -/

namespace interp

theorem det4_hermiteSystem (x0 x1 : ℚ) :
    det4 (hermiteSystem x0 x1) = -(x1 - x0) ^ 4 := by
  simp only [hermiteSystem, det4, det3, det2]
  ring

theorem det4_hermiteSystem_ne_zero (x0 x1 : ℚ) (h : x0 ≠ x1) :
    det4 (hermiteSystem x0 x1) ≠ 0 := by
  rw [det4_hermiteSystem]
  intro hc
  have h4 : (x1 - x0) ^ 4 = 0 := by linarith
  have h5 : x1 - x0 = 0 := pow_eq_zero_iff (by norm_num : (4 : ℕ) ≠ 0) |>.mp h4
  exact h (by linarith)

theorem det4_hermiteSystem_self (x0 : ℚ) :
    det4 (hermiteSystem x0 x0) = 0 := by
  rw [det4_hermiteSystem]
  ring

theorem updateSlope_ok (c : CubicSpline) (idx : Nat)
    (h : c.style = StandardStyle ∨ c.style = MidArcStyle) :
    c.updateSlope idx = .ok (c.setSlopeAt idx) := by
  rcases h with h | h <;>
    simp [CubicSpline.updateSlope, CubicSpline.setSlopeAt, CubicSpline.slopeFor,
      h, StandardStyle, MidArcStyle]

theorem updateSlope_monotone (c : CubicSpline) (idx : Nat)
    (h : c.style = MonotoneStyle) :
    c.updateSlope idx = .error .unsupported := by
  simp [CubicSpline.updateSlope, CubicSpline.computeMonotoneSlope, h,
    StandardStyle, MidArcStyle, MonotoneStyle, Except.map]

theorem updateSlope_unknown (c : CubicSpline) (idx : Nat)
    (h0 : c.style ≠ StandardStyle) (h1 : c.style ≠ MidArcStyle)
    (h2 : c.style ≠ MonotoneStyle) :
    c.updateSlope idx = .error (.unknownStyle c.style) := by
  simp [CubicSpline.updateSlope, h0, h1, h2]

/-- `updateSlope` only succeeds for the two implemented styles, and then
performs exactly `setSlopeAt`. -/
theorem updateSlope_ok_inv (c c' : CubicSpline) (idx : Nat)
    (h : c.updateSlope idx = .ok c') :
    (c.style = StandardStyle ∨ c.style = MidArcStyle) ∧ c' = c.setSlopeAt idx := by
  by_cases h0 : c.style = StandardStyle
  · rw [updateSlope_ok c idx (Or.inl h0)] at h
    exact ⟨Or.inl h0, (Except.ok.injEq _ _).mp h |>.symm⟩
  · by_cases h1 : c.style = MidArcStyle
    · rw [updateSlope_ok c idx (Or.inr h1)] at h
      exact ⟨Or.inr h1, (Except.ok.injEq _ _).mp h |>.symm⟩
    · by_cases h2 : c.style = MonotoneStyle
      · rw [updateSlope_monotone c idx h2] at h
        exact absurd h (by simp)
      · rw [updateSlope_unknown c idx h0 h1 h2] at h
        exact absurd h (by simp)

theorem updateFunc_ok (c : CubicSpline) (idx : Nat)
    (h : c.x.getD idx 0 ≠ c.x.getD (idx + 1) 0) :
    c.updateFunc idx = .ok (c.setFuncAt idx) := by
  have hd := det4_hermiteSystem_ne_zero _ _ h
  simp only [hermiteSystem] at hd
  simp only [CubicSpline.updateFunc, solve4, CubicSpline.setFuncAt, hermiteFit,
    hermiteSystem, bind, Except.bind]
  rw [if_neg hd]

theorem updateFunc_err (c : CubicSpline) (idx : Nat)
    (h : c.x.getD idx 0 = c.x.getD (idx + 1) 0) :
    c.updateFunc idx = .error .singularSystem := by
  have hd : det4 (hermiteSystem (c.x.getD idx 0) (c.x.getD (idx + 1) 0)) = 0 := by
    rw [← h, det4_hermiteSystem_self]
  simp only [hermiteSystem] at hd
  simp only [CubicSpline.updateFunc, solve4, bind, Except.bind]
  rw [if_pos hd]

/-- Evaluating a cubic whose coefficients are quotients over a common
nonzero denominator. -/
theorem div_cubic_eval (N0 N1 N2 N3 D x v : ℚ) (hD : D ≠ 0)
    (h : N0 + N1 * x + N2 * x ^ 2 + N3 * x ^ 3 = v * D) :
    N0 / D + N1 / D * x + N2 / D * x ^ 2 + N3 / D * x ^ 3 = v := by
  field_simp
  linear_combination h

/-- The fitted cubic interpolates the left endpoint value. -/
theorem hermiteFit_eval_left (x0 x1 y0 y1 s0 s1 : ℚ) (h : x0 ≠ x1) :
    (hermiteFit x0 x1 y0 y1 s0 s1).Eval x0 = y0 := by
  rw [CubicFunc.Eval_eq]
  simp only [hermiteFit]
  refine div_cubic_eval _ _ _ _ _ _ _ (det4_hermiteSystem_ne_zero x0 x1 h) ?_
  simp only [hermiteSystem, replCol0, replCol1, replCol2, replCol3,
    det4, det3, det2]
  ring

/-- The fitted cubic interpolates the right endpoint value. -/
theorem hermiteFit_eval_right (x0 x1 y0 y1 s0 s1 : ℚ) (h : x0 ≠ x1) :
    (hermiteFit x0 x1 y0 y1 s0 s1).Eval x1 = y1 := by
  rw [CubicFunc.Eval_eq]
  simp only [hermiteFit]
  refine div_cubic_eval _ _ _ _ _ _ _ (det4_hermiteSystem_ne_zero x0 x1 h) ?_
  simp only [hermiteSystem, replCol0, replCol1, replCol2, replCol3,
    det4, det3, det2]
  ring

end interp

/-! ### The success path of `Add` -/

namespace interp

@[simp] theorem setSlopeAt_x (c : CubicSpline) (i : Nat) :
    (c.setSlopeAt i).x = c.x := rfl

@[simp] theorem setSlopeAt_y (c : CubicSpline) (i : Nat) :
    (c.setSlopeAt i).y = c.y := rfl

@[simp] theorem setSlopeAt_style (c : CubicSpline) (i : Nat) :
    (c.setSlopeAt i).style = c.style := rfl

@[simp] theorem setSlopeAt_funcs (c : CubicSpline) (i : Nat) :
    (c.setSlopeAt i).funcs = c.funcs := rfl

@[simp] theorem setSlopeAt_slopes_length (c : CubicSpline) (i : Nat) :
    (c.setSlopeAt i).slopes.length = c.slopes.length := by
  simp [CubicSpline.setSlopeAt]

@[simp] theorem setFuncAt_x (c : CubicSpline) (i : Nat) :
    (c.setFuncAt i).x = c.x := rfl

@[simp] theorem setFuncAt_y (c : CubicSpline) (i : Nat) :
    (c.setFuncAt i).y = c.y := rfl

@[simp] theorem setFuncAt_style (c : CubicSpline) (i : Nat) :
    (c.setFuncAt i).style = c.style := rfl

@[simp] theorem setFuncAt_slopes (c : CubicSpline) (i : Nat) :
    (c.setFuncAt i).slopes = c.slopes := rfl

@[simp] theorem setFuncAt_funcs_length (c : CubicSpline) (i : Nat) :
    (c.setFuncAt i).funcs.length = c.funcs.length := by
  simp [CubicSpline.setFuncAt]

@[simp] theorem inserted_style (c : CubicSpline) (x y : ℚ) :
    (c.inserted x y).style = c.style := rfl

theorem inserted_x (c : CubicSpline) (x y : ℚ) :
    (c.inserted x y).x = insertAt c.x (searchFloat64s c.x x) x :=
  shiftInsert_set 0 c.x _ x (searchFloat64s_le_length c.x x)

theorem inserted_y (c : CubicSpline) (x y : ℚ)
    (hylen : c.y.length = c.x.length) :
    (c.inserted x y).y = insertAt c.y (searchFloat64s c.x x) y :=
  shiftInsert_set 0 c.y _ y (hylen ▸ searchFloat64s_le_length c.x x)

theorem inserted_slopes (c : CubicSpline) (x y : ℚ) :
    (c.inserted x y).slopes = shiftInsert 0 c.slopes (searchFloat64s c.x x) := rfl

@[simp] theorem inserted_x_length (c : CubicSpline) (x y : ℚ) :
    (c.inserted x y).x.length = c.x.length + 1 := by
  rw [inserted_x, length_insertAt]

@[simp] theorem inserted_slopes_length (c : CubicSpline) (x y : ℚ) :
    (c.inserted x y).slopes.length = c.slopes.length + 1 := by
  rw [inserted_slopes, length_shiftInsert]

theorem inserted_y_length (c : CubicSpline) (x y : ℚ)
    (hylen : c.y.length = c.x.length) :
    (c.inserted x y).y.length = c.x.length + 1 := by
  rw [inserted_y c x y hylen, length_insertAt, hylen]

theorem inserted_funcs (c : CubicSpline) (x y : ℚ) :
    (c.inserted x y).funcs =
      if c.x.length + 1 > 1 then
        shiftInsert CubicFunc.zero c.funcs (searchFloat64s c.x x)
      else c.funcs := by
  show (if ((shiftInsert 0 c.x _).set _ x).length > 1 then _ else _) = _
  rw [List.length_set, length_shiftInsert]

theorem inserted_funcs_length (c : CubicSpline) (x y : ℚ)
    (hflen : c.funcs.length = c.x.length - 1) :
    (c.inserted x y).funcs.length = c.x.length := by
  rw [inserted_funcs]
  by_cases h : c.x.length + 1 > 1
  · rw [if_pos h, length_shiftInsert, hflen]
    omega
  · rw [if_neg h, hflen]
    omega

/-- Strict order of adjacent reads of the inserted knot list. -/
theorem inserted_x_getD_lt (c : CubicSpline) (x y : ℚ)
    (hstrict : (c.inserted x y).x.Pairwise (· < ·)) (i : Nat)
    (hi : i + 1 < c.x.length + 1) :
    (c.inserted x y).x.getD i 0 < (c.inserted x y).x.getD (i + 1) 0 := by
  have hlen : (c.inserted x y).x.length = c.x.length + 1 := inserted_x_length c x y
  rw [List.getD_eq_getElem _ 0 (by omega), List.getD_eq_getElem _ 0 (by omega)]
  exact List.pairwise_iff_getElem.mp hstrict i (i + 1) (by omega) (by omega)
    (by omega)

end interp

namespace interp

theorem bindOk {ε α β : Type} (a : α) (f : α → Except ε β) :
    (Bind.bind (Except.ok a : Except ε α) f) = f a := rfl

theorem bindErr {ε α β : Type} (e : ε) (f : α → Except ε β) :
    (Bind.bind (Except.error e : Except ε α) f) = Except.error e := rfl

theorem pureOk {ε α : Type} (a : α) :
    (Pure.pure a : Except ε α) = Except.ok a := rfl

/-- When the style is implemented and the inserted knot list is strictly
sorted, `Add` succeeds and computes exactly its pure success path. -/
theorem Add_eq_ok_addPure (c : CubicSpline) (x y : ℚ)
    (hsty : c.style = StandardStyle ∨ c.style = MidArcStyle)
    (hslen : c.slopes.length = c.x.length)
    (hstrict : (c.inserted x y).x.Pairwise (· < ·)) :
    c.Add x y = .ok (c.addPure x y) := by
  have hidxle := searchFloat64s_le_length c.x x
  have hne : ∀ i, i + 1 < c.x.length + 1 →
      (c.inserted x y).x.getD i 0 ≠ (c.inserted x y).x.getD (i + 1) 0 :=
    fun i hi => ne_of_lt (inserted_x_getD_lt c x y hstrict i hi)
  simp only [CubicSpline.Add, CubicSpline.addPure]
  rw [updateSlope_ok _ _ (by exact hsty)]
  simp only [bindOk]
  by_cases hpos : 0 < searchFloat64s c.x x
  · rw [if_pos hpos, if_pos hpos, updateSlope_ok _ _ (by exact hsty)]
    simp only [bindOk]
    rw [updateFunc_ok _ _ (by exact hne (searchFloat64s c.x x - 1) (by omega))]
    simp only [bindOk]
    by_cases hpos2 : 1 < searchFloat64s c.x x
    · rw [if_pos hpos2, if_pos hpos2,
        updateFunc_ok _ _ (by exact hne (searchFloat64s c.x x - 2) (by omega))]
      simp only [bindOk, setFuncAt_slopes, setSlopeAt_slopes_length,
        inserted_slopes_length, Nat.add_sub_cancel]
      by_cases hg2 : searchFloat64s c.x x < c.slopes.length
      · rw [if_pos hg2, if_pos hg2, updateSlope_ok _ _ (by exact hsty)]
        simp only [bindOk]
        rw [updateFunc_ok _ _ (by exact hne (searchFloat64s c.x x) (by omega))]
        simp only [bindOk, setFuncAt_slopes, setSlopeAt_slopes_length,
          inserted_slopes_length]
        by_cases hg3 : searchFloat64s c.x x < c.slopes.length + 1 - 2
        · rw [if_pos hg3, if_pos hg3,
            updateFunc_ok _ _ (by exact hne (searchFloat64s c.x x + 1) (by omega))]
        · rw [if_neg hg3, if_neg hg3]
          simp only [pureOk]
      · rw [if_neg hg2, if_neg hg2]
        simp only [pureOk]
    · rw [if_neg hpos2, if_neg hpos2]
      simp only [pureOk, bindOk, setFuncAt_slopes,
        setSlopeAt_slopes_length, inserted_slopes_length, Nat.add_sub_cancel]
      by_cases hg2 : searchFloat64s c.x x < c.slopes.length
      · rw [if_pos hg2, if_pos hg2, updateSlope_ok _ _ (by exact hsty)]
        simp only [bindOk]
        rw [updateFunc_ok _ _ (by exact hne (searchFloat64s c.x x) (by omega))]
        simp only [bindOk, setFuncAt_slopes, setSlopeAt_slopes_length,
          inserted_slopes_length]
        by_cases hg3 : searchFloat64s c.x x < c.slopes.length + 1 - 2
        · rw [if_pos hg3, if_pos hg3,
            updateFunc_ok _ _ (by exact hne (searchFloat64s c.x x + 1) (by omega))]
        · rw [if_neg hg3, if_neg hg3]
      · rw [if_neg hg2, if_neg hg2]
  · rw [if_neg hpos, if_neg hpos]
    simp only [pureOk, bindOk, setSlopeAt_slopes_length,
      inserted_slopes_length, Nat.add_sub_cancel]
    by_cases hg2 : searchFloat64s c.x x < c.slopes.length
    · rw [if_pos hg2, if_pos hg2, updateSlope_ok _ _ (by exact hsty)]
      simp only [bindOk]
      rw [updateFunc_ok _ _ (by exact hne (searchFloat64s c.x x) (by omega))]
      simp only [bindOk, setFuncAt_slopes, setSlopeAt_slopes_length,
        inserted_slopes_length]
      by_cases hg3 : searchFloat64s c.x x < c.slopes.length + 1 - 2
      · rw [if_pos hg3, if_pos hg3,
          updateFunc_ok _ _ (by exact hne (searchFloat64s c.x x + 1) (by omega))]
      · rw [if_neg hg3, if_neg hg3]
    · rw [if_neg hg2, if_neg hg2]

end interp

namespace interp

/-- Adding a knot whose abscissa already occurs in a strictly-sorted spline
always reaches the refit of the zero-width segment `[idx, idx+1]` and
surfaces its SingularSystem failure through `Add`. -/
theorem Add_eq_error_of_mem (c : CubicSpline) (x y : ℚ)
    (hsty : c.style = StandardStyle ∨ c.style = MidArcStyle)
    (hslen : c.slopes.length = c.x.length)
    (hsorted : c.x.Pairwise (· < ·))
    (hmem : x ∈ c.x) :
    c.Add x y = .error .singularSystem := by
  have hle : c.x.Pairwise (· ≤ ·) := hsorted.imp le_of_lt
  obtain ⟨hidxlt, hidxval⟩ := searchFloat64s_of_mem c.x x hsorted hmem
  have hidxle := searchFloat64s_le_length c.x x
  have hXself : (c.inserted x y).x.getD (searchFloat64s c.x x) 0 = x := by
    rw [inserted_x]
    exact getD_insertAt_self c.x _ x 0 hidxle
  have hXnext : (c.inserted x y).x.getD (searchFloat64s c.x x + 1) 0 = x := by
    rw [inserted_x, getD_insertAt_gt c.x _ x 0 _ (by omega)]
    simpa using hidxval
  have hXeq : (c.inserted x y).x.getD (searchFloat64s c.x x) 0
      = (c.inserted x y).x.getD (searchFloat64s c.x x + 1) 0 := by
    rw [hXself, hXnext]
  have hXprev : 0 < searchFloat64s c.x x →
      (c.inserted x y).x.getD (searchFloat64s c.x x - 1) 0
        ≠ (c.inserted x y).x.getD (searchFloat64s c.x x - 1 + 1) 0 := by
    intro hpos
    have h1 : (c.inserted x y).x.getD (searchFloat64s c.x x - 1) 0
        = c.x.getD (searchFloat64s c.x x - 1) 0 := by
      rw [inserted_x]
      exact getD_insertAt_lt c.x _ x 0 _ (by omega) hidxle
    have h2 : searchFloat64s c.x x - 1 + 1 = searchFloat64s c.x x := by omega
    rw [h1, h2, hXself]
    exact ne_of_lt (searchFloat64s_lt c.x x hle _ (by omega))
  have hXprev2 : 1 < searchFloat64s c.x x →
      (c.inserted x y).x.getD (searchFloat64s c.x x - 2) 0
        ≠ (c.inserted x y).x.getD (searchFloat64s c.x x - 2 + 1) 0 := by
    intro hpos2
    have h1 : (c.inserted x y).x.getD (searchFloat64s c.x x - 2) 0
        = c.x.getD (searchFloat64s c.x x - 2) 0 := by
      rw [inserted_x]
      exact getD_insertAt_lt c.x _ x 0 _ (by omega) hidxle
    have h2 : (c.inserted x y).x.getD (searchFloat64s c.x x - 2 + 1) 0
        = c.x.getD (searchFloat64s c.x x - 1) 0 := by
      rw [inserted_x]
      have h3 : searchFloat64s c.x x - 2 + 1 = searchFloat64s c.x x - 1 := by
        omega
      rw [h3]
      exact getD_insertAt_lt c.x _ x 0 _ (by omega) hidxle
    rw [h1, h2, List.getD_eq_getElem _ 0 (by omega),
      List.getD_eq_getElem _ 0 (by omega)]
    exact ne_of_lt (List.pairwise_iff_getElem.mp hsorted _ _ (by omega)
      (by omega) (by omega))
  simp only [CubicSpline.Add]
  rw [updateSlope_ok _ _ (by exact hsty)]
  simp only [bindOk]
  by_cases hpos : 0 < searchFloat64s c.x x
  · rw [if_pos hpos, updateSlope_ok _ _ (by exact hsty)]
    simp only [bindOk]
    rw [updateFunc_ok _ _ (by exact hXprev hpos)]
    simp only [bindOk]
    by_cases hpos2 : 1 < searchFloat64s c.x x
    · rw [if_pos hpos2, updateFunc_ok _ _ (by exact hXprev2 hpos2)]
      simp only [bindOk, setFuncAt_slopes, setSlopeAt_slopes_length,
        inserted_slopes_length, Nat.add_sub_cancel]
      rw [if_pos (by omega : searchFloat64s c.x x < c.slopes.length),
        updateSlope_ok _ _ (by exact hsty)]
      simp only [bindOk]
      rw [updateFunc_err _ _ (by exact hXeq)]
      simp only [bindErr]
    · rw [if_neg hpos2]
      simp only [pureOk, bindOk, setFuncAt_slopes, setSlopeAt_slopes_length,
        inserted_slopes_length, Nat.add_sub_cancel]
      rw [if_pos (by omega : searchFloat64s c.x x < c.slopes.length),
        updateSlope_ok _ _ (by exact hsty)]
      simp only [bindOk]
      rw [updateFunc_err _ _ (by exact hXeq)]
      simp only [bindErr]
  · rw [if_neg hpos]
    simp only [pureOk, bindOk, setSlopeAt_slopes_length,
      inserted_slopes_length, Nat.add_sub_cancel]
    rw [if_pos (by omega : searchFloat64s c.x x < c.slopes.length),
      updateSlope_ok _ _ (by exact hsty)]
    simp only [bindOk]
    rw [updateFunc_err _ _ (by exact hXeq)]
    simp only [bindErr]

/-- A successful `Add` implies an implemented style. -/
theorem add_ok_style (c c' : CubicSpline) (x y : ℚ)
    (h : c.Add x y = .ok c') :
    c.style = StandardStyle ∨ c.style = MidArcStyle := by
  by_cases h0 : c.style = StandardStyle
  · exact Or.inl h0
  by_cases h1 : c.style = MidArcStyle
  · exact Or.inr h1
  exfalso
  simp only [CubicSpline.Add] at h
  by_cases h2 : c.style = MonotoneStyle
  · rw [updateSlope_monotone _ _ (by exact h2)] at h
    rw [bindErr] at h
    exact absurd h (by simp)
  · rw [updateSlope_unknown _ _ (by exact h0) (by exact h1) (by exact h2)] at h
    rw [bindErr] at h
    exact absurd h (by simp)

end interp

/-! ### The fields of the pure success path -/

namespace interp

theorem setSlopeAt_slopes (c : CubicSpline) (i : Nat) :
    (c.setSlopeAt i).slopes = c.slopes.set i (c.slopeFor i) := rfl

theorem slopeFor_setSlopeAt (c : CubicSpline) (i k : Nat) :
    (c.setSlopeAt i).slopeFor k = c.slopeFor k := rfl

theorem slopeFor_setFuncAt (c : CubicSpline) (i k : Nat) :
    (c.setFuncAt i).slopeFor k = c.slopeFor k := rfl

theorem addPure_style (c : CubicSpline) (x y : ℚ) :
    (c.addPure x y).style = c.style := by
  simp only [CubicSpline.addPure]
  repeat' split
  all_goals rfl

theorem addPure_x (c : CubicSpline) (x y : ℚ) :
    (c.addPure x y).x = insertAt c.x (searchFloat64s c.x x) x := by
  simp only [CubicSpline.addPure]
  repeat' split
  all_goals simp only [setFuncAt_x, setSlopeAt_x, inserted_x]

theorem addPure_y (c : CubicSpline) (x y : ℚ)
    (hylen : c.y.length = c.x.length) :
    (c.addPure x y).y = insertAt c.y (searchFloat64s c.x x) y := by
  simp only [CubicSpline.addPure]
  repeat' split
  all_goals simp only [setFuncAt_y, setSlopeAt_y]
  all_goals exact inserted_y c x y hylen

/-- The slopes of the success path: the shifted list with the three policy
recomputations written in.  The two degenerate insertion positions only
repeat a write with the same value or write one slot past the end. -/
theorem addPure_slopes (c : CubicSpline) (x y : ℚ)
    (hslen : c.slopes.length = c.x.length) :
    (c.addPure x y).slopes =
      (((c.inserted x y).slopes.set (searchFloat64s c.x x)
          ((c.inserted x y).slopeFor (searchFloat64s c.x x))).set
        (searchFloat64s c.x x - 1)
          ((c.inserted x y).slopeFor (searchFloat64s c.x x - 1))).set
        (searchFloat64s c.x x + 1)
          ((c.inserted x y).slopeFor (searchFloat64s c.x x + 1)) := by
  have hidxle := searchFloat64s_le_length c.x x
  simp only [CubicSpline.addPure]
  simp only [apply_ite CubicSpline.slopes, apply_ite (List.length (α := ℚ)),
    apply_ite (fun s : CubicSpline => s.slopeFor (searchFloat64s c.x x + 1)),
    setFuncAt_slopes, setSlopeAt_slopes, List.length_set, ite_self,
    inserted_slopes_length, Nat.add_sub_cancel, slopeFor_setSlopeAt,
    slopeFor_setFuncAt]
  by_cases hpos : 0 < searchFloat64s c.x x
  · rw [if_pos hpos]
    by_cases hg2 : searchFloat64s c.x x < c.slopes.length
    · rw [if_pos hg2]
    · rw [if_neg hg2]
      conv_rhs => rw [List.set_eq_of_length_le
        (by simp only [List.length_set, inserted_slopes_length]; omega)]
  · rw [if_neg hpos]
    have h0 : searchFloat64s c.x x = 0 := by omega
    rw [h0]
    simp only [Nat.zero_sub, List.set_set]
    by_cases hg2 : 0 < c.slopes.length
    · rw [if_pos hg2]
    · rw [if_neg hg2]
      conv_rhs => rw [List.set_eq_of_length_le
        (by simp only [List.length_set, inserted_slopes_length]; omega)]

end interp

namespace interp

theorem setFuncAt_funcs (c : CubicSpline) (i : Nat) :
    (c.setFuncAt i).funcs = c.funcs.set i
      (hermiteFit (c.x.getD i 0) (c.x.getD (i + 1) 0)
        (c.y.getD i 0) (c.y.getD (i + 1) 0)
        (c.slopes.getD i 0) (c.slopes.getD (i + 1) 0)) := rfl

/-- Slopes outside the recomputation radius keep their shifted values. -/
theorem addPure_slopes_getD_far (c : CubicSpline) (x y : ℚ)
    (hslen : c.slopes.length = c.x.length) (k : Nat)
    (hfar : k + 1 < searchFloat64s c.x x ∨ searchFloat64s c.x x + 1 < k) :
    (c.addPure x y).slopes.getD k 0 = (c.inserted x y).slopes.getD k 0 := by
  rw [addPure_slopes c x y hslen,
    getD_set_ne _ _ _ _ _ (by omega), getD_set_ne _ _ _ _ _ (by omega),
    getD_set_ne _ _ _ _ _ (by omega)]

/-- Slopes inside the recomputation radius hold the policy value for the
final knot sequence. -/
theorem addPure_slopes_getD_near (c : CubicSpline) (x y : ℚ)
    (hslen : c.slopes.length = c.x.length) (k : Nat)
    (hk : k < c.x.length + 1)
    (h1 : searchFloat64s c.x x ≤ k + 1) (h2 : k ≤ searchFloat64s c.x x + 1) :
    (c.addPure x y).slopes.getD k 0 = (c.inserted x y).slopeFor k := by
  have hidxle := searchFloat64s_le_length c.x x
  rw [addPure_slopes c x y hslen]
  by_cases e1 : k = searchFloat64s c.x x + 1
  · subst e1
    rw [getD_set_self _ _ _ _
      (by simp only [List.length_set, inserted_slopes_length]; omega)]
  · rw [getD_set_ne _ _ _ _ _ (by omega)]
    by_cases e2 : k = searchFloat64s c.x x - 1
    · subst e2
      rw [getD_set_self _ _ _ _
        (by simp only [List.length_set, inserted_slopes_length]; omega)]
    · have e3 : k = searchFloat64s c.x x := by omega
      subst e3
      rw [getD_set_ne _ _ _ _ _ (by omega),
        getD_set_self _ _ _ _
          (by simp only [List.length_set, inserted_slopes_length]; omega)]

/-- Segment polynomials outside the refit radius keep their shifted values. -/
theorem addPure_funcs_getD_far (c : CubicSpline) (x y : ℚ) (k : Nat)
    (hfar : k + 2 < searchFloat64s c.x x ∨ searchFloat64s c.x x + 1 < k) :
    (c.addPure x y).funcs.getD k CubicFunc.zero
      = (c.inserted x y).funcs.getD k CubicFunc.zero := by
  simp only [CubicSpline.addPure]
  simp only [apply_ite CubicSpline.slopes, apply_ite (List.length (α := ℚ)),
    setFuncAt_slopes, setSlopeAt_slopes, List.length_set, ite_self,
    inserted_slopes_length, Nat.add_sub_cancel]
  repeat' split
  all_goals simp only [setFuncAt_funcs, setSlopeAt_funcs]
  all_goals repeat rw [getD_set_ne _ _ _ _ _ (by omega)]

/-- Segment polynomials inside the refit radius are Hermite fits of their
endpoint knots (for some slope targets). -/
theorem addPure_funcs_getD_near (c : CubicSpline) (x y : ℚ)
    (hslen : c.slopes.length = c.x.length)
    (hflen : c.funcs.length = c.x.length - 1) (k : Nat)
    (hk : k + 1 < c.x.length + 1)
    (h1 : searchFloat64s c.x x ≤ k + 2) (h2 : k ≤ searchFloat64s c.x x + 1) :
    ∃ s0 s1, (c.addPure x y).funcs.getD k CubicFunc.zero
      = hermiteFit ((c.inserted x y).x.getD k 0) ((c.inserted x y).x.getD (k + 1) 0)
          ((c.inserted x y).y.getD k 0) ((c.inserted x y).y.getD (k + 1) 0) s0 s1 := by
  have hidxle := searchFloat64s_le_length c.x x
  have hflen2 : (c.inserted x y).funcs.length = c.x.length :=
    inserted_funcs_length c x y hflen
  simp only [CubicSpline.addPure]
  simp only [apply_ite CubicSpline.slopes, apply_ite (List.length (α := ℚ)),
    setFuncAt_slopes, setSlopeAt_slopes, List.length_set, ite_self,
    inserted_slopes_length, Nat.add_sub_cancel]
  repeat' split
  all_goals simp only [setFuncAt_funcs, setSlopeAt_funcs]
  all_goals
    (by_cases e1 : k = searchFloat64s c.x x + 1) <;>
    (by_cases e2 : k = searchFloat64s c.x x) <;>
    (by_cases e3 : k = searchFloat64s c.x x - 1) <;>
    (by_cases e4 : k = searchFloat64s c.x x - 2) <;>
    (first
      | (exfalso; omega)
      | (first | subst e1 | subst e2 | subst e3 | subst e4
         repeat rw [getD_set_ne _ _ _ _ _ (by omega)]
         rw [getD_set_self _ _ _ _
           (by simp only [List.length_set, hflen2]; omega)]
         exact ⟨_, _, rfl⟩))

end interp

/-! ### Locality of the slope policies under insertion -/

namespace interp

theorem getD_shiftInsert_lt' {α : Type} (d : α) (xs : List α) (i j : Nat)
    (e : α) (hj : j < i) (hjlen : j < xs.length) :
    (shiftInsert d xs i).getD j e = xs.getD j e := by
  unfold shiftInsert
  split
  · next h => exact getD_insertAt_lt xs i _ e j hj (le_of_lt h)
  · exact List.getD_append _ _ _ _ hjlen

theorem slopeFor_congr (c1 c2 : CubicSpline) (k : Nat)
    (hst : c1.style = c2.style) (hx : c1.x = c2.x) (hy : c1.y = c2.y) :
    c1.slopeFor k = c2.slopeFor k := by
  simp only [CubicSpline.slopeFor, CubicSpline.computeStandardSlope,
    CubicSpline.computeMidArcSlope, hst, hx, hy]

theorem computeStandardSlope_inserted_left (c : CubicSpline) (x y : ℚ)
    (hylen : c.y.length = c.x.length) (k : Nat)
    (hk : k + 1 < searchFloat64s c.x x) :
    (c.inserted x y).computeStandardSlope k = c.computeStandardSlope k := by
  have hidxle := searchFloat64s_le_length c.x x
  have hgx : ∀ j, j < searchFloat64s c.x x →
      (c.inserted x y).x.getD j 0 = c.x.getD j 0 := by
    intro j hj
    rw [inserted_x]
    exact getD_insertAt_lt c.x _ x 0 j hj hidxle
  have hgy : ∀ j, j < searchFloat64s c.x x →
      (c.inserted x y).y.getD j 0 = c.y.getD j 0 := by
    intro j hj
    rw [inserted_y c x y hylen]
    exact getD_insertAt_lt c.y _ y 0 j hj (by omega)
  simp only [CubicSpline.computeStandardSlope, inserted_x_length]
  rw [if_neg (show ¬(c.x.length + 1 < 2) by omega),
    if_neg (show ¬(c.x.length < 2) by omega)]
  by_cases hk0 : k = 0
  · subst hk0
    rw [if_pos rfl, if_pos rfl, hgx 0 (by omega), hgx 1 (by omega),
      hgy 0 (by omega), hgy 1 (by omega)]
  · rw [if_neg hk0, if_neg hk0,
      if_neg (show ¬(k = c.x.length + 1 - 1) by omega),
      if_neg (show ¬(k = c.x.length - 1) by omega),
      hgx (k - 1) (by omega), hgx k (by omega), hgx (k + 1) (by omega),
      hgy (k - 1) (by omega), hgy k (by omega), hgy (k + 1) (by omega)]

theorem computeMidArcSlope_inserted_left (c : CubicSpline) (x y : ℚ)
    (hylen : c.y.length = c.x.length) (k : Nat)
    (hk : k + 1 < searchFloat64s c.x x) :
    (c.inserted x y).computeMidArcSlope k = c.computeMidArcSlope k := by
  have hidxle := searchFloat64s_le_length c.x x
  have hgx : ∀ j, j < searchFloat64s c.x x →
      (c.inserted x y).x.getD j 0 = c.x.getD j 0 := by
    intro j hj
    rw [inserted_x]
    exact getD_insertAt_lt c.x _ x 0 j hj hidxle
  have hgy : ∀ j, j < searchFloat64s c.x x →
      (c.inserted x y).y.getD j 0 = c.y.getD j 0 := by
    intro j hj
    rw [inserted_y c x y hylen]
    exact getD_insertAt_lt c.y _ y 0 j hj (by omega)
  simp only [CubicSpline.computeMidArcSlope, inserted_x_length]
  rw [if_neg (show ¬(c.x.length + 1 < 2) by omega),
    if_neg (show ¬(c.x.length < 2) by omega)]
  by_cases hk0 : k = 0
  · subst hk0
    rw [if_pos rfl, if_pos rfl, hgx 0 (by omega), hgx 1 (by omega),
      hgy 0 (by omega), hgy 1 (by omega)]
  · rw [if_neg hk0, if_neg hk0,
      if_neg (show ¬(k = c.x.length + 1 - 1) by omega),
      if_neg (show ¬(k = c.x.length - 1) by omega),
      hgx (k - 1) (by omega), hgx (k + 1) (by omega),
      hgy (k - 1) (by omega), hgy (k + 1) (by omega)]

theorem computeStandardSlope_inserted_right (c : CubicSpline) (x y : ℚ)
    (hylen : c.y.length = c.x.length) (k : Nat)
    (hk1 : searchFloat64s c.x x + 1 < k) (hk2 : k < c.x.length + 1) :
    (c.inserted x y).computeStandardSlope k = c.computeStandardSlope (k - 1) := by
  have hidxle := searchFloat64s_le_length c.x x
  have hgx : ∀ j, searchFloat64s c.x x < j →
      (c.inserted x y).x.getD j 0 = c.x.getD (j - 1) 0 := by
    intro j hj
    rw [inserted_x]
    exact getD_insertAt_gt c.x _ x 0 j hj
  have hgy : ∀ j, searchFloat64s c.x x < j →
      (c.inserted x y).y.getD j 0 = c.y.getD (j - 1) 0 := by
    intro j hj
    rw [inserted_y c x y hylen]
    exact getD_insertAt_gt c.y _ y 0 j hj
  simp only [CubicSpline.computeStandardSlope, inserted_x_length,
    Nat.add_sub_cancel]
  rw [if_neg (show ¬(c.x.length + 1 < 2) by omega),
    if_neg (show ¬(c.x.length < 2) by omega),
    if_neg (show ¬(k = 0) by omega),
    if_neg (show ¬(k - 1 = 0) by omega)]
  by_cases hlast : k = c.x.length
  · rw [if_pos (show k = c.x.length by omega),
      if_pos (show k - 1 = c.x.length - 1 by omega),
      hgx c.x.length (by omega), hgx (c.x.length - 1) (by omega),
      hgy c.x.length (by omega), hgy (c.x.length - 1) (by omega)]
  · rw [if_neg (show ¬(k = c.x.length) by omega),
      if_neg (show ¬(k - 1 = c.x.length - 1) by omega),
      hgx (k - 1) (by omega), hgx k (by omega), hgx (k + 1) (by omega),
      hgy (k - 1) (by omega), hgy k (by omega), hgy (k + 1) (by omega),
      show k + 1 - 1 = k - 1 + 1 from by omega]

theorem computeMidArcSlope_inserted_right (c : CubicSpline) (x y : ℚ)
    (hylen : c.y.length = c.x.length) (k : Nat)
    (hk1 : searchFloat64s c.x x + 1 < k) (hk2 : k < c.x.length + 1) :
    (c.inserted x y).computeMidArcSlope k = c.computeMidArcSlope (k - 1) := by
  have hidxle := searchFloat64s_le_length c.x x
  have hgx : ∀ j, searchFloat64s c.x x < j →
      (c.inserted x y).x.getD j 0 = c.x.getD (j - 1) 0 := by
    intro j hj
    rw [inserted_x]
    exact getD_insertAt_gt c.x _ x 0 j hj
  have hgy : ∀ j, searchFloat64s c.x x < j →
      (c.inserted x y).y.getD j 0 = c.y.getD (j - 1) 0 := by
    intro j hj
    rw [inserted_y c x y hylen]
    exact getD_insertAt_gt c.y _ y 0 j hj
  simp only [CubicSpline.computeMidArcSlope, inserted_x_length,
    Nat.add_sub_cancel]
  rw [if_neg (show ¬(c.x.length + 1 < 2) by omega),
    if_neg (show ¬(c.x.length < 2) by omega),
    if_neg (show ¬(k = 0) by omega),
    if_neg (show ¬(k - 1 = 0) by omega)]
  by_cases hlast : k = c.x.length
  · rw [if_pos (show k = c.x.length by omega),
      if_pos (show k - 1 = c.x.length - 1 by omega),
      hgx c.x.length (by omega), hgx (c.x.length - 1) (by omega),
      hgy c.x.length (by omega), hgy (c.x.length - 1) (by omega)]
  · rw [if_neg (show ¬(k = c.x.length) by omega),
      if_neg (show ¬(k - 1 = c.x.length - 1) by omega),
      hgx (k - 1) (by omega), hgx (k + 1) (by omega),
      hgy (k - 1) (by omega), hgy (k + 1) (by omega),
      show k + 1 - 1 = k - 1 + 1 from by omega]

theorem slopeFor_inserted_left (c : CubicSpline) (x y : ℚ)
    (hylen : c.y.length = c.x.length) (k : Nat)
    (hk : k + 1 < searchFloat64s c.x x) :
    (c.inserted x y).slopeFor k = c.slopeFor k := by
  simp only [CubicSpline.slopeFor, inserted_style]
  by_cases h : c.style = StandardStyle
  · rw [if_pos h, if_pos h, computeStandardSlope_inserted_left c x y hylen k hk]
  · rw [if_neg h, if_neg h, computeMidArcSlope_inserted_left c x y hylen k hk]

theorem slopeFor_inserted_right (c : CubicSpline) (x y : ℚ)
    (hylen : c.y.length = c.x.length) (k : Nat)
    (hk1 : searchFloat64s c.x x + 1 < k) (hk2 : k < c.x.length + 1) :
    (c.inserted x y).slopeFor k = c.slopeFor (k - 1) := by
  simp only [CubicSpline.slopeFor, inserted_style]
  by_cases h : c.style = StandardStyle
  · rw [if_pos h, if_pos h,
      computeStandardSlope_inserted_right c x y hylen k hk1 hk2]
  · rw [if_neg h, if_neg h,
      computeMidArcSlope_inserted_right c x y hylen k hk1 hk2]

end interp

namespace interp

theorem addPure_funcs_length (c : CubicSpline) (x y : ℚ)
    (hflen : c.funcs.length = c.x.length - 1) :
    (c.addPure x y).funcs.length = c.x.length := by
  simp only [CubicSpline.addPure]
  repeat' split
  all_goals simp only [setFuncAt_funcs, setSlopeAt_funcs, List.length_set]
  all_goals exact inserted_funcs_length c x y hflen

/-- The engine invariant survives the success path of an insertion with a
fresh abscissa. -/
theorem Inv_addPure (c : CubicSpline) (x y : ℚ) (hInv : Inv c)
    (hsty : c.style = StandardStyle ∨ c.style = MidArcStyle)
    (hnm : x ∉ c.x) :
    Inv (c.addPure x y) := by
  obtain ⟨hylen, hslen, hflen, hsorted, _hstyC, hSlope, hFunc⟩ := hInv
  have hidxle := searchFloat64s_le_length c.x x
  have hxne : (c.addPure x y).x = insertAt c.x (searchFloat64s c.x x) x :=
    addPure_x c x y
  have hstrict : (c.addPure x y).x.Pairwise (· < ·) := by
    rw [hxne]
    exact insertAt_pairwise_lt c.x x hsorted hnm
  have hstrictI : (c.inserted x y).x.Pairwise (· < ·) := by
    rw [inserted_x]
    exact insertAt_pairwise_lt c.x x hsorted hnm
  have hLx : (c.addPure x y).x.length = c.x.length + 1 := by
    rw [hxne, length_insertAt]
  have hxx : (c.inserted x y).x = (c.addPure x y).x := by
    rw [inserted_x, hxne]
  have hyy : (c.inserted x y).y = (c.addPure x y).y := by
    rw [inserted_y c x y hylen, addPure_y c x y hylen]
  refine ⟨?_, ?_, ?_, hstrict, ?_, ?_, ?_⟩
  · rw [addPure_y c x y hylen, length_insertAt, hLx, hylen]
  · rw [addPure_slopes c x y hslen]
    simp only [List.length_set, inserted_slopes_length]
    rw [hslen, hLx]
  · rw [addPure_funcs_length c x y hflen, hLx]
    omega
  · intro _
    rw [addPure_style]
    exact hsty
  · -- slope consistency
    intro k hk
    rw [hLx] at hk
    have hcongr : (c.inserted x y).slopeFor k = (c.addPure x y).slopeFor k :=
      slopeFor_congr _ _ k (by rw [inserted_style, addPure_style]) hxx hyy
    by_cases hnear : searchFloat64s c.x x ≤ k + 1 ∧ k ≤ searchFloat64s c.x x + 1
    · rw [addPure_slopes_getD_near c x y hslen k hk hnear.1 hnear.2]
      exact hcongr
    · rcases (by omega : k + 1 < searchFloat64s c.x x ∨
        searchFloat64s c.x x + 1 < k) with hfar | hfar
      · rw [addPure_slopes_getD_far c x y hslen k (Or.inl hfar),
          inserted_slopes,
          getD_shiftInsert_lt 0 c.slopes _ k 0 (by omega) (by omega),
          hSlope k (by omega), ← slopeFor_inserted_left c x y hylen k hfar]
        exact hcongr
      · rw [addPure_slopes_getD_far c x y hslen k (Or.inr hfar),
          inserted_slopes,
          getD_shiftInsert_gt 0 c.slopes _ k 0 (by omega) (by omega),
          hSlope (k - 1) (by omega),
          ← slopeFor_inserted_right c x y hylen k hfar (by omega)]
        exact hcongr
  · -- segment interpolation
    intro k hk
    rw [hLx] at hk
    have hxk : ∀ j, j < searchFloat64s c.x x →
        (c.addPure x y).x.getD j 0 = c.x.getD j 0 := by
      intro j hj
      rw [hxne]
      exact getD_insertAt_lt c.x _ x 0 j hj hidxle
    have hxk2 : ∀ j, searchFloat64s c.x x < j →
        (c.addPure x y).x.getD j 0 = c.x.getD (j - 1) 0 := by
      intro j hj
      rw [hxne]
      exact getD_insertAt_gt c.x _ x 0 j hj
    have hyk : ∀ j, j < searchFloat64s c.x x →
        (c.addPure x y).y.getD j 0 = c.y.getD j 0 := by
      intro j hj
      rw [← hyy, inserted_y c x y hylen]
      exact getD_insertAt_lt c.y _ y 0 j hj (by omega)
    have hyk2 : ∀ j, searchFloat64s c.x x < j →
        (c.addPure x y).y.getD j 0 = c.y.getD (j - 1) 0 := by
      intro j hj
      rw [← hyy, inserted_y c x y hylen]
      exact getD_insertAt_gt c.y _ y 0 j hj
    by_cases hnear : searchFloat64s c.x x ≤ k + 2 ∧ k ≤ searchFloat64s c.x x + 1
    · obtain ⟨s0, s1, hfit⟩ :=
        addPure_funcs_getD_near c x y hslen hflen k hk hnear.1 hnear.2
      rw [hfit, hxx, hyy]
      have hlt : (c.addPure x y).x.getD k 0 < (c.addPure x y).x.getD (k + 1) 0 := by
        rw [← hxx]
        exact inserted_x_getD_lt c x y hstrictI k hk
      exact ⟨hermiteFit_eval_left _ _ _ _ _ _ (ne_of_lt hlt),
        hermiteFit_eval_right _ _ _ _ _ _ (ne_of_lt hlt)⟩
    · rcases (by omega : k + 2 < searchFloat64s c.x x ∨
        searchFloat64s c.x x + 1 < k) with hfar | hfar
      · rw [addPure_funcs_getD_far c x y k (Or.inl hfar), inserted_funcs,
          if_pos (by omega),
          getD_shiftInsert_lt' CubicFunc.zero c.funcs _ k CubicFunc.zero
            (by omega) (by omega),
          hxk k (by omega), hxk (k + 1) (by omega),
          hyk k (by omega), hyk (k + 1) (by omega)]
        exact hFunc k (by omega)
      · rw [addPure_funcs_getD_far c x y k (Or.inr hfar), inserted_funcs,
          if_pos (by omega),
          getD_shiftInsert_gt CubicFunc.zero c.funcs _ k CubicFunc.zero
            (by omega) (by omega),
          hxk2 k (by omega), hxk2 (k + 1) (by omega),
          hyk2 k (by omega), hyk2 (k + 1) (by omega)]
        have hFk := hFunc (k - 1) (by omega)
        rw [show k - 1 + 1 = k from by omega] at hFk
        rw [show k + 1 - 1 = k from by omega]
        exact hFk

end interp

namespace interp

/-- Every spline built by `NewCubicSpline` and successful `Add` calls
satisfies the engine invariant. -/
theorem inv_of_reachable (c : CubicSpline) (h : Reachable c) : Inv c := by
  induction h with
  | new style =>
    refine ⟨rfl, rfl, rfl, List.Pairwise.nil, ?_, ?_, ?_⟩
    · intro hx
      exact absurd rfl hx
    · intro k hk
      simp [NewCubicSpline] at hk
    · intro k hk
      simp [NewCubicSpline] at hk
  | add c c' x y hr hok ih =>
    have hsty := add_ok_style c c' x y hok
    by_cases hmem : x ∈ c.x
    · rw [Add_eq_error_of_mem c x y hsty ih.2.1 ih.2.2.2.1 hmem] at hok
      exact absurd hok (by simp)
    · have hstrictI : (c.inserted x y).x.Pairwise (· < ·) := by
        rw [inserted_x]
        exact insertAt_pairwise_lt c.x x ih.2.2.2.1 hmem
      rw [Add_eq_ok_addPure c x y hsty ih.2.1 hstrictI] at hok
      injection hok with h2
      subst h2
      exact Inv_addPure c x y ih hsty hmem

end interp

/-! ### The segment sum of `Integ` -/

namespace interp

open kahan

theorem IntegAsc_eq_segSum (c : CubicSpline) (x1 x2 : ℚ)
    (h2 : 2 ≤ c.y.length) :
    c.IntegAsc x1 x2 =
      c.segSum x1 x2 (c.funcIndexForX x1) (c.funcIndexForX x2) := by
  rw [CubicSpline.IntegAsc, if_neg (by omega), if_neg (by omega),
    foldl_Add_Sum _ _ _ rfl]
  simp only [CubicSpline.segSum, NewSummer64]
  rw [zero_add]

theorem segSum_single (c : CubicSpline) (u v : ℚ) (s : Nat) :
    c.segSum u v s s = (c.funcs.getD s CubicFunc.zero).Integ u v := by
  simp only [CubicSpline.segSum]
  rw [show s + 1 - s = 1 from by omega, List.range'_one]
  simp

theorem segSum_peel (c : CubicSpline) (u v : ℚ) (s e : Nat) (h : s < e) :
    c.segSum u v s e =
      (c.funcs.getD s CubicFunc.zero).Integ u (c.x.getD (s + 1) 0)
        + c.segSum (c.x.getD (s + 1) 0) v (s + 1) e := by
  simp only [CubicSpline.segSum]
  rw [show e + 1 - s = (e - s) + 1 from by omega, List.range'_succ,
    show e + 1 - (s + 1) = e - s from by omega]
  simp only [List.map_cons, List.sum_cons]
  congr 1
  · rw [if_true, if_neg (show ¬(s = e) by omega)]
  · congr 1
    apply List.map_congr_left
    intro i hi
    rw [List.mem_range'] at hi
    obtain ⟨j, hj, hij⟩ := hi
    by_cases his : i = s + 1
    · rw [if_neg (by omega), if_pos his, his]
    · rw [if_neg (by omega), if_neg his]

theorem segSum_firstpoint (c : CubicSpline) (u w v : ℚ) (s e : Nat)
    (h : s ≤ e) :
    c.segSum u v s e =
      (c.funcs.getD s CubicFunc.zero).Integ u w + c.segSum w v s e := by
  rcases Nat.eq_or_lt_of_le h with heq | hlt
  · subst heq
    rw [segSum_single, segSum_single]
    simp only [CubicFunc.Integ]
    ring
  · rw [segSum_peel c u v s e hlt, segSum_peel c w v s e hlt]
    simp only [CubicFunc.Integ]
    ring

theorem segSum_split_aux (c : CubicSpline) (b d : ℚ) :
    ∀ k s e (a : ℚ), s + k ≤ e →
      c.segSum a d s e = c.segSum a b s (s + k) + c.segSum b d (s + k) e := by
  intro k
  induction k with
  | zero =>
    intro s e a h
    simp only [Nat.add_zero] at *
    rw [segSum_single]
    exact segSum_firstpoint c a b d s e h
  | succ k ih =>
    intro s e a h
    rw [segSum_peel c a d s e (by omega),
      show s + (k + 1) = s + 1 + k from by omega,
      ih (s + 1) e (c.x.getD (s + 1) 0) (by omega),
      segSum_peel c a b s (s + 1 + k) (by omega)]
    ring

/-- Chasles splitting of the segment sum at an intermediate index. -/
theorem segSum_split (c : CubicSpline) (a b d : ℚ) (s m e : Nat)
    (hsm : s ≤ m) (hme : m ≤ e) :
    c.segSum a d s e = c.segSum a b s m + c.segSum b d m e := by
  have hx := segSum_split_aux c b d (m - s) s e a (by omega)
  rwa [show s + (m - s) = m from by omega] at hx

theorem funcIndexForX_lt_length (c : CubicSpline) (q : ℚ)
    (h : 1 ≤ c.funcs.length) : c.funcIndexForX q < c.funcs.length := by
  simp only [CubicSpline.funcIndexForX]
  split_ifs <;> omega

theorem funcIndexForX_mono (c : CubicSpline)
    (hs : c.x.Pairwise (· ≤ ·)) (q1 q2 : ℚ) (h : q1 ≤ q2) :
    c.funcIndexForX q1 ≤ c.funcIndexForX q2 := by
  have hm := searchFloat64s_mono c.x hs q1 q2 h
  simp only [CubicSpline.funcIndexForX]
  split_ifs <;> omega

end interp

/-! ### Evaluation at a knot, and the spec's slope formulas -/

namespace interp

/-- Under the engine invariant, `Eval` returns the stored ordinate at every
knot abscissa. -/
theorem eval_knot_of_inv (c : CubicSpline) (hInv : Inv c) (i : Nat)
    (hi : i < c.x.length) :
    c.Eval (c.x.getD i 0) = c.y.getD i 0 := by
  obtain ⟨hylen, hslen, hflen, hsorted, _, _, hFunc⟩ := hInv
  rw [CubicSpline.Eval]
  by_cases h1 : c.y.length = 1
  · rw [if_pos h1]
    have hi0 : i = 0 := by omega
    subst hi0
    rfl
  · rw [if_neg h1, if_neg (by omega)]
    have hmem : c.x.getD i 0 ∈ c.x := by
      rw [List.getD_eq_getElem _ 0 hi]
      exact List.getElem_mem hi
    obtain ⟨hrlt, hrval⟩ := searchFloat64s_of_mem c.x _ hsorted hmem
    have hsearch : searchFloat64s c.x (c.x.getD i 0) = i := by
      have hri : searchFloat64s c.x (c.x.getD i 0) ≤ i := by
        by_contra hc
        push_neg at hc
        exact lt_irrefl _
          (searchFloat64s_lt c.x _ (hsorted.imp le_of_lt) i hc)
      rcases Nat.eq_or_lt_of_le hri with he | hlt2
      · exact he
      · exfalso
        have hcontra := List.pairwise_iff_getElem.mp hsorted _ i hrlt hi hlt2
        rw [← List.getD_eq_getElem c.x 0 hrlt, hrval,
          List.getD_eq_getElem c.x 0 hi] at hcontra
        exact lt_irrefl _ hcontra
    simp only [CubicSpline.funcIndexForX, hsearch]
    by_cases hi0 : i = 0
    · subst hi0
      have hfi : (if ((0 : Nat) : Int) - 1 < 0 then (0 : Int)
          else if (c.funcs.length : Int) ≤ ((0 : Nat) : Int) - 1 then
            (c.funcs.length : Int) - 1
          else ((0 : Nat) : Int) - 1).toNat = 0 := by
        split_ifs <;> omega
      rw [hfi]
      exact (hFunc 0 (by omega)).1
    · have hfi : (if ((i : Nat) : Int) - 1 < 0 then (0 : Int)
          else if (c.funcs.length : Int) ≤ ((i : Nat) : Int) - 1 then
            (c.funcs.length : Int) - 1
          else ((i : Nat) : Int) - 1).toNat = i - 1 := by
        split_ifs <;> omega
      rw [hfi]
      have hF := hFunc (i - 1) (by omega)
      rw [show i - 1 + 1 = i from by omega] at hF
      exact hF.2

theorem computeStandardSlope_eq_spec (c : CubicSpline) (i : Nat) :
    c.computeStandardSlope i = slopeSpecStandard c.x c.y i := by
  simp only [CubicSpline.computeStandardSlope, slopeSpecStandard]
  split_ifs with h1 h2 h3
  · rfl
  · rfl
  · rw [h3]
  · rfl

theorem computeMidArcSlope_eq_spec (c : CubicSpline) (i : Nat) :
    c.computeMidArcSlope i = slopeSpecMidArc c.x c.y i := by
  simp only [CubicSpline.computeMidArcSlope, slopeSpecMidArc]
  split_ifs with h1 h2 h3
  · rfl
  · rfl
  · rw [h3]
  · rfl

end interp

/-! ### Concrete evaluation helpers for witnesses -/

namespace interp

theorem add_concrete1 : (NewCubicSpline StandardStyle).Add 0 0
    = .ok ⟨StandardStyle, [0], [0], [0], []⟩ := by
  norm_num [CubicSpline.Add, NewCubicSpline, CubicSpline.inserted, searchFloat64s,
    searchLoop, shiftInsert, insertAt, CubicSpline.updateSlope,
    CubicSpline.computeStandardSlope, StandardStyle, bind, Except.bind,
    pure, Except.pure]

theorem add_concrete2 :
    CubicSpline.Add ⟨StandardStyle, [0], [0], [0], []⟩ 1 1
      = .ok ⟨StandardStyle, [0, 1], [0, 1], [1, 1], [⟨0, 1, 0, 0⟩]⟩ := by
  norm_num [CubicSpline.Add, CubicSpline.inserted, searchFloat64s, searchLoop,
    shiftInsert, insertAt, CubicSpline.updateSlope, CubicSpline.updateFunc,
    CubicSpline.computeStandardSlope, solve4, det4, det3, det2, replCol0,
    replCol1, replCol2, replCol3, StandardStyle, bind, Except.bind,
    pure, Except.pure, CubicFunc.zero]

theorem add_concrete3 :
    CubicSpline.Add ⟨StandardStyle, [0, 1], [0, 1], [1, 1], [⟨0, 1, 0, 0⟩]⟩ 2 0
      = .ok ⟨StandardStyle, [0, 1, 2], [0, 1, 0], [1, 0, -1],
          [⟨0, 1, 1, -1⟩, ⟨-2, 7, -5, 1⟩]⟩ := by
  norm_num [CubicSpline.Add, CubicSpline.inserted, searchFloat64s, searchLoop,
    shiftInsert, insertAt, CubicSpline.updateSlope, CubicSpline.updateFunc,
    CubicSpline.computeStandardSlope, solve4, det4, det3, det2, replCol0,
    replCol1, replCol2, replCol3, StandardStyle, bind, Except.bind,
    pure, Except.pure, CubicFunc.zero]

theorem add_concrete4 :
    CubicSpline.Add ⟨StandardStyle, [0, 1, 2], [0, 1, 0], [1, 0, -1],
        [⟨0, 1, 1, -1⟩, ⟨-2, 7, -5, 1⟩]⟩ (5/2) 0
      = .ok ⟨StandardStyle, [0, 1, 2, 5/2], [0, 1, 0, 0], [1, 0, -1/2, 0],
          [⟨0, 1, 1, -1⟩, ⟨-3, 19/2, -7, 3/2⟩, ⟨25, -65/2, 14, -2⟩]⟩ := by
  norm_num [CubicSpline.Add, CubicSpline.inserted, searchFloat64s, searchLoop,
    shiftInsert, insertAt, CubicSpline.updateSlope, CubicSpline.updateFunc,
    CubicSpline.computeStandardSlope, solve4, det4, det3, det2, replCol0,
    replCol1, replCol2, replCol3, StandardStyle, bind, Except.bind,
    pure, Except.pure, CubicFunc.zero]

theorem reach_concrete2 :
    Reachable ⟨StandardStyle, [0, 1], [0, 1], [1, 1], [⟨0, 1, 0, 0⟩]⟩ :=
  Reachable.add _ _ 1 1
    (Reachable.add _ _ 0 0 (Reachable.new StandardStyle) add_concrete1)
    add_concrete2

theorem reach_concrete3 :
    Reachable ⟨StandardStyle, [0, 1, 2], [0, 1, 0], [1, 0, -1],
      [⟨0, 1, 1, -1⟩, ⟨-2, 7, -5, 1⟩]⟩ :=
  Reachable.add _ _ 2 0 reach_concrete2 add_concrete3

end interp

/-! ### The claims -/

namespace interp

/-- C1: for every spline built by a sequence of `Add(x, y)` calls with
pairwise-distinct abscissas (every state reachable by successful `Add`s —
a repeated abscissa makes `Add` fail and produces no state), every stored
knot `(x_i, y_i)` satisfies `Eval(x_i) = y_i`, whatever the insertion
order was. -/
theorem claim_c1 (c : CubicSpline) (hr : Reachable c) :
    ∀ p ∈ c.x.zip c.y, c.Eval p.1 = p.2 := by
  intro p hp
  have hInv := inv_of_reachable c hr
  obtain ⟨i, hi, hpi⟩ := List.getElem_of_mem hp
  rw [List.getElem_zip] at hpi
  have hix : i < c.x.length := by
    have hl := hi
    simp only [List.length_zip, lt_min_iff] at hl
    exact hl.1
  have hiy : i < c.y.length := by
    have hl := hi
    simp only [List.length_zip, lt_min_iff] at hl
    exact hl.2
  rw [← hpi]
  show c.Eval (c.x[i]) = c.y[i]
  rw [← List.getD_eq_getElem c.x 0 hix, ← List.getD_eq_getElem c.y 0 hiy]
  exact eval_knot_of_inv c hInv i hix

theorem claim_c1_witness :
    CubicSpline.Eval ⟨StandardStyle, [0, 1], [0, 1], [1, 1], [⟨0, 1, 0, 0⟩]⟩ 0
      = 0 :=
  claim_c1 _ reach_concrete2 (0, 0) (by simp)

/-- C2: adding a knot whose abscissa coincides with an existing knot's
(and whose ordinate differs) makes the refit of the adjoining zero-width
segment fail with SingularSystem, and `Add` surfaces that failure instead
of storing a polynomial. -/
theorem claim_c2 (c : CubicSpline) (x y : ℚ) (hr : Reachable c)
    (hmem : x ∈ c.x)
    (hdiff : ∀ i, i < c.x.length → c.x.getD i 0 = x → c.y.getD i 0 ≠ y) :
    c.Add x y = .error .singularSystem := by
  have hInv := inv_of_reachable c hr
  have hsty : c.style = StandardStyle ∨ c.style = MidArcStyle :=
    hInv.2.2.2.2.1 (List.ne_nil_of_mem hmem)
  exact Add_eq_error_of_mem c x y hsty hInv.2.1 hInv.2.2.2.1 hmem

theorem claim_c2_witness :
    CubicSpline.Add ⟨StandardStyle, [0, 1], [0, 1], [1, 1], [⟨0, 1, 0, 0⟩]⟩ 1 7
      = .error .singularSystem :=
  claim_c2 _ 1 7 reach_concrete2 (by norm_num)
    (by
      intro i hi hx
      have h2 : i < 2 := by simpa using hi
      interval_cases i <;> norm_num at hx ⊢)

/-- C3: on a Monotone-style spline every `Add` invokes the slope policy and
fails fast with the explicit Unsupported error (the source's
`monotone cubic splines not yet implemented.` panic), storing no numeric
slope and substituting no other policy. -/
theorem claim_c3 (c : CubicSpline) (hsty : c.style = MonotoneStyle) (x y : ℚ) :
    c.Add x y = .error .unsupported := by
  simp only [CubicSpline.Add]
  rw [updateSlope_monotone _ _ (by exact hsty), bindErr]

theorem claim_c3_witness :
    (NewCubicSpline MonotoneStyle).Add 1 5 = .error .unsupported :=
  claim_c3 (NewCubicSpline MonotoneStyle) rfl 1 5

/-- C4 as stated is false: `NewCubicSpline` performs no validation, so an
out-of-range selector yields a fully-formed engine and the unknown-style
error only surfaces on the first `Add`. -/
theorem claim_c4_counterexample :
    NewCubicSpline 3 = ⟨3, [], [], [], []⟩
      ∧ (NewCubicSpline 3).Add 0 0 = .error (.unknownStyle 3) := by
  refine ⟨rfl, ?_⟩
  simp only [CubicSpline.Add]
  rw [updateSlope_unknown _ _ (by decide) (by decide) (by decide), bindErr]
  simp only [inserted_style, NewCubicSpline]

/-- C4 amended: for every selector outside {Standard, MidArc, Monotone},
`NewCubicSpline` still returns a fully-formed empty engine (construction
never fails); the unknown-style error surfaces on the first operation that
invokes the slope policy, namely the first `Add`. -/
theorem claim_c4 (s : SplineStyle) (h0 : s ≠ StandardStyle)
    (h1 : s ≠ MidArcStyle) (h2 : s ≠ MonotoneStyle) :
    NewCubicSpline s = ⟨s, [], [], [], []⟩
      ∧ ∀ x y : ℚ, (NewCubicSpline s).Add x y = .error (.unknownStyle s) := by
  refine ⟨rfl, fun x y => ?_⟩
  simp only [CubicSpline.Add]
  rw [updateSlope_unknown _ _ (by exact h0) (by exact h1) (by exact h2), bindErr]
  simp only [inserted_style, NewCubicSpline]

theorem claim_c4_witness :
    (NewCubicSpline 7).Add 1 5 = .error (.unknownStyle 7) :=
  (claim_c4 7 (by decide) (by decide) (by decide)).2 1 5

/-- C5: with zero knots, `Eval`, `Deriv` and `Integ` all return 0; with a
single knot `(x0, y0)`, `Eval` is constantly `y0`, `Deriv` is constantly 0
and `Integ(x1, x2) = y0 * (x2 - x1)`. -/
theorem claim_c5 (c : CubicSpline) :
    (c.y.length = 0 →
      (∀ q : ℚ, c.Eval q = 0 ∧ c.Deriv q = 0) ∧ ∀ a b : ℚ, c.Integ a b = 0) ∧
    (∀ y0 : ℚ, c.y = [y0] →
      (∀ q : ℚ, c.Eval q = y0 ∧ c.Deriv q = 0) ∧
        ∀ a b : ℚ, c.Integ a b = y0 * (b - a)) := by
  constructor
  · intro h0
    have hAsc : ∀ u v : ℚ, c.IntegAsc u v = 0 := by
      intro u v
      rw [CubicSpline.IntegAsc, if_neg (by omega), if_pos h0]
    refine ⟨fun q => ⟨?_, ?_⟩, fun a b => ?_⟩
    · rw [CubicSpline.Eval, if_neg (by omega), if_pos h0]
    · rw [CubicSpline.Deriv, if_pos (by omega)]
    · rw [CubicSpline.Integ]
      split_ifs <;> simp [hAsc]
  · intro y0 hy
    have h1 : c.y.length = 1 := by rw [hy]; rfl
    have hgot : c.y.getD 0 0 = y0 := by rw [hy]; rfl
    have hAsc : ∀ u v : ℚ, c.IntegAsc u v = y0 * (v - u) := by
      intro u v
      rw [CubicSpline.IntegAsc, if_pos h1, hgot]
    refine ⟨fun q => ⟨?_, ?_⟩, fun a b => ?_⟩
    · rw [CubicSpline.Eval, if_pos h1, hgot]
    · rw [CubicSpline.Deriv, if_pos (by omega)]
    · rw [CubicSpline.Integ]
      split_ifs with hab hba
      · rw [hab]; ring
      · rw [hAsc]; ring
      · rw [hAsc]

theorem claim_c5_witness :
    CubicSpline.Eval ⟨StandardStyle, [], [], [], []⟩ 5 = 0
      ∧ CubicSpline.Integ ⟨StandardStyle, [3], [4], [0], []⟩ 2 6 = 4 * (6 - 2) :=
  ⟨(((claim_c5 ⟨StandardStyle, [], [], [], []⟩).1 rfl).1 5).1,
    ((claim_c5 ⟨StandardStyle, [3], [4], [0], []⟩).2 4 rfl).2 2 6⟩

/-- C6: for every spline with sorted knots and all rational arguments,
`Integ(x, x) = 0`, `Integ(a, b) = -Integ(b, a)` (antisymmetry by
construction from the argument-swapping branch), and
`Integ(a, b) + Integ(b, d) = Integ(a, d)` for `a ≤ b ≤ d` — exactly, since
the Kahan-compensated sums are exact over `ℚ`. -/
theorem claim_c6 (c : CubicSpline) (hs : c.x.Pairwise (· ≤ ·)) :
    (∀ q : ℚ, c.Integ q q = 0) ∧
    (∀ a b : ℚ, c.Integ a b = -c.Integ b a) ∧
    (∀ a b d : ℚ, a ≤ b → b ≤ d →
      c.Integ a b + c.Integ b d = c.Integ a d) := by
  refine ⟨?_, ?_, ?_⟩
  · intro q
    simp [CubicSpline.Integ]
  · intro a b
    rcases lt_trichotomy a b with h | h | h
    · simp only [CubicSpline.Integ]
      rw [if_neg (show ¬(a = b) from ne_of_lt h),
        if_neg (show ¬(b < a) from not_lt.mpr (le_of_lt h)),
        if_neg (show ¬(b = a) from (ne_of_lt h).symm),
        if_pos (show a < b from h), neg_neg]
    · subst h
      simp [CubicSpline.Integ]
    · simp only [CubicSpline.Integ]
      rw [if_neg (show ¬(a = b) from (ne_of_lt h).symm),
        if_pos (show b < a from h),
        if_neg (show ¬(b = a) from ne_of_lt h),
        if_neg (show ¬(a < b) from not_lt.mpr (le_of_lt h))]
  · intro a b d hab hbd
    rcases eq_or_lt_of_le hab with rfl | hab2
    · have h0 : c.Integ a a = 0 := by simp [CubicSpline.Integ]
      rw [h0, zero_add]
    · rcases eq_or_lt_of_le hbd with rfl | hbd2
      · have h0 : c.Integ b b = 0 := by simp [CubicSpline.Integ]
        rw [h0, add_zero]
      · have e1 : c.Integ a b = c.IntegAsc a b := by
          simp only [CubicSpline.Integ]
          rw [if_neg (ne_of_lt hab2), if_neg (not_lt.mpr (le_of_lt hab2))]
        have e2 : c.Integ b d = c.IntegAsc b d := by
          simp only [CubicSpline.Integ]
          rw [if_neg (ne_of_lt hbd2), if_neg (not_lt.mpr (le_of_lt hbd2))]
        have e3 : c.Integ a d = c.IntegAsc a d := by
          have had : a < d := lt_trans hab2 hbd2
          simp only [CubicSpline.Integ]
          rw [if_neg (ne_of_lt had), if_neg (not_lt.mpr (le_of_lt had))]
        rw [e1, e2, e3]
        by_cases hlen1 : c.y.length = 1
        · simp only [CubicSpline.IntegAsc]
          rw [if_pos hlen1, if_pos hlen1, if_pos hlen1]
          ring
        · by_cases hlen0 : c.y.length = 0
          · simp only [CubicSpline.IntegAsc]
            rw [if_neg hlen1, if_neg hlen1, if_neg hlen1,
              if_pos hlen0, if_pos hlen0, if_pos hlen0]
            ring
          · rw [IntegAsc_eq_segSum c a b (by omega),
              IntegAsc_eq_segSum c b d (by omega),
              IntegAsc_eq_segSum c a d (by omega)]
            exact (segSum_split c a b d _ _ _
              (funcIndexForX_mono c hs a b (le_of_lt hab2))
              (funcIndexForX_mono c hs b d (le_of_lt hbd2))).symm

theorem claim_c6_witness :
    CubicSpline.Integ ⟨StandardStyle, [0, 1], [0, 1], [1, 1], [⟨0, 1, 0, 0⟩]⟩
        0 (1/2)
      + CubicSpline.Integ ⟨StandardStyle, [0, 1], [0, 1], [1, 1], [⟨0, 1, 0, 0⟩]⟩
        (1/2) 1
      = CubicSpline.Integ ⟨StandardStyle, [0, 1], [0, 1], [1, 1], [⟨0, 1, 0, 0⟩]⟩
        0 1 :=
  (claim_c6 _ (by norm_num)).2.2 0 (1/2) 1 (by norm_num) (by norm_num)

end interp

namespace interp

/-- C7: after every successful `Add`, the knot abscissas are sorted
ascending, the slope count equals the knot count, and the segment count
equals `max(knots - 1, 0)`. -/
theorem claim_c7 (c c' : CubicSpline) (x y : ℚ) (hr : Reachable c)
    (hok : c.Add x y = .ok c') :
    c'.x.Pairwise (· ≤ ·) ∧ c'.slopes.length = c'.x.length ∧
      (c'.funcs.length : Int) = max ((c'.x.length : Int) - 1) 0 := by
  have hInv := inv_of_reachable c' (Reachable.add c c' x y hr hok)
  refine ⟨hInv.2.2.2.1.imp le_of_lt, hInv.2.1, ?_⟩
  have hfl := hInv.2.2.1
  omega

theorem claim_c7_witness :
    ([(0 : ℚ), 1, 2].Pairwise (· ≤ ·))
      ∧ ([(1 : ℚ), 0, -1].length = [(0 : ℚ), 1, 2].length)
      ∧ (([(⟨0, 1, 1, -1⟩ : CubicFunc), ⟨-2, 7, -5, 1⟩].length : Int)
          = max (([(0 : ℚ), 1, 2].length : Int) - 1) 0) :=
  claim_c7 ⟨StandardStyle, [0, 1], [0, 1], [1, 1], [⟨0, 1, 0, 0⟩]⟩
    ⟨StandardStyle, [0, 1, 2], [0, 1, 0], [1, 0, -1],
      [⟨0, 1, 1, -1⟩, ⟨-2, 7, -5, 1⟩]⟩
    2 0 reach_concrete2 add_concrete3

/-- C8: in every reachable spline, the slope stored at each knot matches
the active policy formula worded by the spec: 0 with fewer than 2 knots,
the single adjacent secant slope at a boundary knot, and at an interior
knot the average of the two adjacent secant slopes under Standard or the
outer-span secant under MidArc. -/
theorem claim_c8 (c : CubicSpline) (hr : Reachable c) :
    ∀ i, i < c.x.length →
      (c.style = StandardStyle →
        c.slopes.getD i 0 = slopeSpecStandard c.x c.y i) ∧
      (c.style = MidArcStyle →
        c.slopes.getD i 0 = slopeSpecMidArc c.x c.y i) := by
  intro i hi
  have hInv := inv_of_reachable c hr
  have hs := hInv.2.2.2.2.2.1 i hi
  constructor
  · intro hsty
    rw [hs, CubicSpline.slopeFor, if_pos hsty, computeStandardSlope_eq_spec]
  · intro hsty
    rw [hs, CubicSpline.slopeFor,
      if_neg (show ¬(c.style = StandardStyle) by rw [hsty]; decide),
      computeMidArcSlope_eq_spec]

theorem claim_c8_witness :
    ([(1 : ℚ), 0, -1].getD 1 0
      = slopeSpecStandard [(0 : ℚ), 1, 2] [(0 : ℚ), 1, 0] 1) :=
  (claim_c8 ⟨StandardStyle, [0, 1, 2], [0, 1, 0], [1, 0, -1],
      [⟨0, 1, 1, -1⟩, ⟨-2, 7, -5, 1⟩]⟩
    reach_concrete3 1 (by norm_num)).1 rfl

/-- C9: a successful `Add` at insertion index `idx` leaves every slope
outside the radius-1 window `[idx-1, idx+1]` and every segment polynomial
outside the window `[idx-2, idx+1]` unchanged, up to the index shift the
insertion causes on the right of `idx`. -/
theorem claim_c9 (c c' : CubicSpline) (x y : ℚ) (hr : Reachable c)
    (hok : c.Add x y = .ok c') :
    (∀ j, j + 2 < searchFloat64s c.x x →
      c'.funcs.getD j CubicFunc.zero = c.funcs.getD j CubicFunc.zero) ∧
    (∀ j, searchFloat64s c.x x + 1 < j → j < c'.funcs.length →
      c'.funcs.getD j CubicFunc.zero = c.funcs.getD (j - 1) CubicFunc.zero) ∧
    (∀ j, j + 1 < searchFloat64s c.x x →
      c'.slopes.getD j 0 = c.slopes.getD j 0) ∧
    (∀ j, searchFloat64s c.x x + 1 < j → j < c'.slopes.length →
      c'.slopes.getD j 0 = c.slopes.getD (j - 1) 0) := by
  have hInv := inv_of_reachable c hr
  have hsty := add_ok_style c c' x y hok
  have hslen := hInv.2.1
  have hflen := hInv.2.2.1
  have hidxle := searchFloat64s_le_length c.x x
  by_cases hmem : x ∈ c.x
  · rw [Add_eq_error_of_mem c x y hsty hslen hInv.2.2.2.1 hmem] at hok
    exact absurd hok (by simp)
  · have hstrictI : (c.inserted x y).x.Pairwise (· < ·) := by
      rw [inserted_x]
      exact insertAt_pairwise_lt c.x x hInv.2.2.2.1 hmem
    rw [Add_eq_ok_addPure c x y hsty hslen hstrictI] at hok
    injection hok with h2
    subst h2
    refine ⟨?_, ?_, ?_, ?_⟩
    · intro j hj
      rw [addPure_funcs_getD_far c x y j (Or.inl hj), inserted_funcs,
        if_pos (show c.x.length + 1 > 1 by omega)]
      exact getD_shiftInsert_lt' CubicFunc.zero c.funcs _ j CubicFunc.zero
        (by omega) (by omega)
    · intro j hj hlen
      rw [addPure_funcs_length c x y hflen] at hlen
      rw [addPure_funcs_getD_far c x y j (Or.inr hj), inserted_funcs,
        if_pos (show c.x.length + 1 > 1 by omega)]
      exact getD_shiftInsert_gt CubicFunc.zero c.funcs _ j CubicFunc.zero
        (by omega) (by omega)
    · intro j hj
      rw [addPure_slopes_getD_far c x y hslen j (Or.inl hj), inserted_slopes]
      exact getD_shiftInsert_lt' 0 c.slopes _ j 0 (by omega) (by omega)
    · intro j hj hlen
      rw [addPure_slopes c x y hslen] at hlen
      simp only [List.length_set, inserted_slopes_length] at hlen
      rw [addPure_slopes_getD_far c x y hslen j (Or.inr hj), inserted_slopes]
      exact getD_shiftInsert_gt 0 c.slopes _ j 0 (by omega) (by omega)

theorem claim_c9_witness :
    ([(⟨0, 1, 1, -1⟩ : CubicFunc), ⟨-3, 19/2, -7, 3/2⟩,
        ⟨25, -65/2, 14, -2⟩].getD 0 CubicFunc.zero
      = [(⟨0, 1, 1, -1⟩ : CubicFunc), ⟨-2, 7, -5, 1⟩].getD 0 CubicFunc.zero) :=
  (claim_c9 ⟨StandardStyle, [0, 1, 2], [0, 1, 0], [1, 0, -1],
      [⟨0, 1, 1, -1⟩, ⟨-2, 7, -5, 1⟩]⟩
    ⟨StandardStyle, [0, 1, 2, 5/2], [0, 1, 0, 0], [1, 0, -1/2, 0],
      [⟨0, 1, 1, -1⟩, ⟨-3, 19/2, -7, 3/2⟩, ⟨25, -65/2, 14, -2⟩]⟩
    (5/2) 0 reach_concrete3 add_concrete4).1 0
    (by norm_num [searchFloat64s, searchLoop])

/-- C10: with at least 2 knots and the segment-count invariant, the
segment lookup always lands in `[0, segment_count - 1]`, and every index
the integration loop visits keeps its `funcs[i]`, `x[i]` and `x[i+1]`
accesses in range. -/
theorem claim_c10 (c : CubicSpline) (h2 : 2 ≤ c.x.length)
    (hflen : c.funcs.length = c.x.length - 1) :
    (∀ q : ℚ, c.funcIndexForX q < c.funcs.length) ∧
    (∀ q1 q2 : ℚ, ∀ i ∈ List.range' (c.funcIndexForX q1)
        (c.funcIndexForX q2 + 1 - c.funcIndexForX q1),
      i < c.funcs.length ∧ i + 1 < c.x.length) := by
  have hfl : 1 ≤ c.funcs.length := by omega
  refine ⟨fun q => funcIndexForX_lt_length c q hfl, ?_⟩
  intro q1 q2 i hi
  rw [List.mem_range'] at hi
  obtain ⟨j, hj, hij⟩ := hi
  have hq2 := funcIndexForX_lt_length c q2 hfl
  omega

theorem claim_c10_witness :
    CubicSpline.funcIndexForX
        ⟨StandardStyle, [0, 1], [0, 1], [1, 1], [⟨0, 1, 0, 0⟩]⟩ 5
      < [(⟨0, 1, 0, 0⟩ : CubicFunc)].length :=
  (claim_c10 ⟨StandardStyle, [0, 1], [0, 1], [1, 1], [⟨0, 1, 0, 0⟩]⟩
    (by norm_num) rfl).1 5

end interp
